import Mathlib

/-!
Verification of the query-understanding and hybrid-retrieval core of the
mcgill-course-crafter repository (src/backend/rag_layer.py,
src/backend/qa_agent.py, src/deterministic_logic.py).

The Python code is shallowly embedded: strings are lists of characters,
database reads are explicit lists of rows carried in an environment record,
the Chroma similarity index is an oracle function carried in the same
environment, and the regular expressions of the source are embedded as
executable scanners faithful to the Python regex semantics (leftmost match,
greedy quantifiers with backtracking, ASCII word boundaries, IGNORECASE).
All definitions are executable so that theorems can be instantiated on
concrete inputs by computation.
-/

set_option maxRecDepth 100000

namespace CourseCrafter

/-! ## Character classes (ASCII, as used by the Python regexes) -/

/-- ASCII letter, the only characters matched by the [A-Z] classes of the
source under IGNORECASE (inputs are ASCII). -/
def isAsciiLetter (c : Char) : Bool :=
  ('A' ≤ c && c ≤ 'Z') || ('a' ≤ c && c ≤ 'z')

/-- ASCII decimal digit, for the regex class \d. -/
def isAsciiDigit (c : Char) : Bool :=
  '0' ≤ c && c ≤ '9'

/-- Characters of the regex class \s (Python: space, tab, newline, carriage
return, form feed, vertical tab; ASCII fragment). -/
def isSpaceChar (c : Char) : Bool :=
  c = ' ' || c = '\t' || c = '\n' || c = '\r' || c = '\x0b' || c = '\x0c'

/-- Word characters for the regex assertion \b (ASCII fragment of \w). -/
def isWordChar (c : Char) : Bool :=
  isAsciiLetter c || isAsciiDigit c || c = '_'

/-- Characters of the regex class [\s\-] used as the separator of the
course-code pattern. -/
def isSepChar (c : Char) : Bool :=
  isSpaceChar c || c = '-'

/-- ASCII upper-casing of one character, the effect of Python str.upper on
the ASCII inputs handled here. -/
def upChar (c : Char) : Char := c.toUpper

/-- ASCII lower-casing of one character, the effect of Python str.lower on
the ASCII inputs handled here. -/
def lowChar (c : Char) : Char := c.toLower

/-- Python str.upper over a character list. -/
def upStr (s : List Char) : List Char := s.map upChar

/-- Python str.lower over a character list. -/
def lowStr (s : List Char) : List Char := s.map lowChar

/-! ## Generic list-of-characters utilities -/

/-- Whether the first list is a contiguous substring of the second
(Python operator in on str). -/
def isSubstr (p s : List Char) : Bool :=
  match s with
  | [] => p.isEmpty
  | _ :: rest => p.isPrefixOf s || isSubstr p rest

/-- Python str.strip (both ends), with the \s character set. -/
def stripStr (s : List Char) : List Char :=
  ((s.dropWhile isSpaceChar).reverse.dropWhile isSpaceChar).reverse

/-- Python str.rstrip with a single character argument: drop all trailing
occurrences of that character. -/
def rstripChar (c : Char) (s : List Char) : List Char :=
  (s.reverse.dropWhile (fun d => d = c)).reverse

/-- The seen-set deduplication idiom of extract_all_course_ids: keep an
element when it is not in the set of already emitted ones. -/
def dedupAux {α : Type} [DecidableEq α] (seen : List α) : List α → List α
  | [] => []
  | x :: xs => if x ∈ seen then dedupAux seen xs else x :: dedupAux (x :: seen) xs

/-- Keep the first occurrence of every element, in order. -/
def dedupKeepFirst {α : Type} [DecidableEq α] (l : List α) : List α :=
  dedupAux [] l

/-! ## The course-code regular expression

Embeds COURSE_ID_RE = \b([A-Z]{3,4})[\s\-]?(\d{3}[A-Z]?)\b with re.IGNORECASE
(src/backend/rag_layer.py line 211), and the variant
\b([A-Z]{3,4})\s*(\d{3}[A-Z]?)\b used on upper-cased prerequisite text
(get_available_courses, and the completed-courses extraction of
detect_planning_query). The two differ only in the separator: an optional
single [\s\-] character versus any run of \s. The embedding resolves the
backtracking of the Python engine deterministically:

* separator, optional mode: when the next character is in [\s\-] it must be
  consumed, because the zero-width alternative leaves a non-digit where
  \d{3} must match; otherwise nothing is consumed;
* separator, star mode: the maximal whitespace run is consumed, because any
  shorter choice leaves a whitespace character where \d{3} must match;
* trailing [A-Z]?: when the next character is a letter it is consumed and
  the following character must close a word boundary; if it does not, the
  zero-width alternative also fails, because the letter itself blocks the
  boundary after the digits;
* [A-Z]{3,4}: greedy, so a fourth letter is attempted first and the
  three-letter parse is the fallback. -/

/-- Closing part of the course-code pattern: three digits, optional trailing
letter, and the final word boundary. Returns (number group, rest). -/
def codeTail (ns : List Char) (s : List Char) : Option (List Char × List Char) :=
  match s with
  | [] => some (ns, [])
  | t :: rest =>
    if isAsciiLetter t then
      match rest with
      | [] => some (ns ++ [t], [])
      | u :: _ => if isWordChar u then none else some (ns ++ [t], rest)
    else if isWordChar t then none
    else some (ns, s)

/-- Exactly three digits. -/
def take3Digits (s : List Char) : Option (List Char × List Char) :=
  match s with
  | a :: b :: c :: rest =>
    if isAsciiDigit a && isAsciiDigit b && isAsciiDigit c then
      some ([a, b, c], rest)
    else none
  | _ => none

/-- The separator between department and number: [\s\-]? in optional mode
(sepStar = false), \s* in star mode (sepStar = true). Returns the consumed
characters and the rest. -/
def dropSep (sepStar : Bool) (s : List Char) : List Char × List Char :=
  if sepStar then (s.takeWhile isSpaceChar, s.dropWhile isSpaceChar)
  else
    match s with
    | c :: rest => if isSepChar c then ([c], rest) else ([], s)
    | [] => ([], [])

/-- After the department letters: separator, digits, tail. Returns
(department group, number group, rest). -/
def afterLetters (sepStar : Bool) (ds : List Char) (s : List Char) :
    Option (List Char × List Char × List Char) :=
  let (_, s1) := dropSep sepStar s
  match take3Digits s1 with
  | none => none
  | some (ns, s2) =>
    match codeTail ns s2 with
    | none => none
    | some (num, rest) => some (ds, num, rest)

/-- One attempt of the whole course-code pattern at the current position.
prevWord is the word-character status of the preceding character, used for
the opening \b; the pattern starts with a letter, so the boundary holds
exactly when the preceding character is not a word character. -/
def tryMatchCode (sepStar : Bool) (prevWord : Bool) (s : List Char) :
    Option (List Char × List Char × List Char) :=
  if prevWord then none
  else
    match s with
    | l1 :: l2 :: l3 :: rest =>
      if isAsciiLetter l1 && isAsciiLetter l2 && isAsciiLetter l3 then
        match rest with
        | l4 :: rest4 =>
          if isAsciiLetter l4 then
            (afterLetters sepStar [l1, l2, l3, l4] rest4).orElse
              (fun _ => afterLetters sepStar [l1, l2, l3] rest)
          else afterLetters sepStar [l1, l2, l3] rest
        | [] => afterLetters sepStar [l1, l2, l3] []
      else none
    | _ => none

/-- The scan of re.findall: leftmost matches, continuing after each match.
Fuel is the number of remaining scan steps; the wrapper passes the length of
the input, which suffices because every step consumes at least one
character. -/
def scanCodesAux (sepStar : Bool) : Nat → Bool → List Char →
    List (List Char × List Char)
  | 0, _, _ => []
  | Nat.succ fuel, prevWord, s =>
    match s with
    | [] => []
    | c :: rest =>
      match tryMatchCode sepStar prevWord (c :: rest) with
      | some (ds, ns, rest2) => (ds, ns) :: scanCodesAux sepStar fuel true rest2
      | none => scanCodesAux sepStar fuel (isWordChar c) rest

/-- re.findall of the course-code pattern over a whole string: list of
(department group, number group) pairs. -/
def courseIdFindAll (sepStar : Bool) (s : List Char) :
    List (List Char × List Char) :=
  scanCodesAux sepStar s.length false s

/-- Canonical form of one regex match: upper case, exactly one space. -/
def canonCode (p : List Char × List Char) : String :=
  String.mk (upStr p.1 ++ ' ' :: upStr p.2)

/-- extract_all_course_ids (src/backend/rag_layer.py): all course ids of the
query, canonical DEPT NNN form, first occurrences kept in order. -/
def extract_all_course_ids (query : String) : List String :=
  dedupKeepFirst ((courseIdFindAll false query.data).map canonCode)

/-- The regex-first half of extract_course_id: the first match of
COURSE_ID_RE in the query, canonicalised. re.search returns the leftmost
match, which is the head of the findall scan. -/
def searchCourseId (query : String) : Option String :=
  (courseIdFindAll false query.data).head?.map canonCode

/-- DEPT_FALSE_POSITIVES (src/backend/rag_layer.py lines 215 to 225):
common English words that look like department codes. -/
def DEPT_FALSE_POSITIVES : List String :=
  ["WHAT", "THAT", "HAVE", "THIS", "WHEN", "THEN", "WITH", "FROM",
   "TAKE", "GIVE", "FIND", "LIST", "SHOW", "NEED", "WANT", "LIKE",
   "DOES", "EACH", "MANY", "MORE", "MUCH", "MOST", "NEXT", "SOME",
   "SUCH", "VERY", "WELL", "WILL", "THEY", "THEM", "YOUR", "YEAR",
   "ALSO", "INTO", "OVER", "LAST", "LONG", "LOOK", "MAKE", "JUST",
   "KNOW", "LESS", "MUST", "NONE", "ONLY", "PLAN", "REAL", "SAME",
   "TELL", "TEST", "TIME", "TRUE", "TURN", "TYPE", "WAIT", "WORK",
   "OPEN", "HOLD", "STAY", "STOP", "STEP", "BOTH", "EVEN", "WERE",
   "BEEN", "KEEP", "WENT", "BEST", "PICK", "SKIP", "HELP", "DONE"]

/-! ## Data model: course rows, prerequisite edges, retrieval environment

Course and PrereqEdge mirror src/backend/db_setup.py. The similarity index
(Chroma) is an external collaborator and enters the model as an oracle
function from query and result count to scored hits. Scores are rationals:
the code only ever writes the literals 0.0 and 0.5 and compares nothing. -/

structure CourseRow where
  id : String
  title : String
  description : String
  credits : Rat
  offered_by : String
  offered_fall : Bool
  offered_winter : Bool
  offered_summer : Bool
  prereq_text : Option String
  coreq_text : Option String
deriving DecidableEq

structure PrereqEdgeRow where
  src_course_id : String
  dst_course_id : String
  kind : String
deriving DecidableEq

structure SemanticHit where
  course_id : String
  score : Rat
deriving DecidableEq

structure Env where
  courses : List CourseRow
  edges : List PrereqEdgeRow
  semantic : String → Nat → List SemanticHit

/-- The dict built by get_course_directly and enrich_context. -/
structure CourseInfo where
  id : String
  title : String
  department : String
  credits : Rat
  prereqs : Option String
  coreqs : Option String
  description : String
  offered_fall : Bool
  offered_winter : Bool
  offered_summer : Bool
deriving DecidableEq

/-- The course dict as assembled by get_course_directly and enrich_context:
department is the offered_by column. -/
def CourseRow.toInfo (c : CourseRow) : CourseInfo :=
  { id := c.id, title := c.title, department := c.offered_by,
    credits := c.credits, prereqs := c.prereq_text, coreqs := c.coreq_text,
    description := c.description, offered_fall := c.offered_fall,
    offered_winter := c.offered_winter, offered_summer := c.offered_summer }

/-- get_course_directly (src/backend/rag_layer.py): first row with the exact
id. -/
def get_course_directly (env : Env) (course_id : String) : Option CourseInfo :=
  (env.courses.find? (fun c => c.id = course_id)).map CourseRow.toInfo

/-- enrich_context (src/backend/rag_layer.py): rows whose id is in the list,
in database order. -/
def enrich_context (env : Env) (course_ids : List String) : List CourseInfo :=
  (env.courses.filter (fun c => c.id ∈ course_ids)).map CourseRow.toInfo

/-! ## The reverse-prerequisite text scan (src/deterministic_logic.py)

get_courses_requiring builds the pattern
\b{normalized.replace(" ", "[- ]?")}\b with re.IGNORECASE, where normalized
is the course id with hyphens replaced by spaces and upper-cased; so each
space of the normalized id matches an optional single hyphen or space. The
edge-based lookup over PrereqEdge is commented out in the source; only the
text scan runs. -/

/-- Matching of the flexible pattern at one position: literal characters are
compared case-insensitively, a space of the pattern is an optional single
character among hyphen and space. Returns the rest after the match. At most
one of the two branches of the optional can succeed, because the pattern
character after a space is a digit and never equals a separator. -/
def flexMatchAt : List Char → List Char → Option (List Char)
  | [], s => some s
  | p :: ps, s =>
    if p = ' ' then
      match s with
      | c :: rest =>
        if c = '-' || c = ' ' then
          (flexMatchAt ps rest).orElse (fun _ => flexMatchAt ps (c :: rest))
        else flexMatchAt ps (c :: rest)
      | [] => flexMatchAt ps []
    else
      match s with
      | c :: rest => if upChar c = upChar p then flexMatchAt ps rest else none
      | [] => none

/-- re.search of the flexible pattern: try every position, with the opening
word boundary (the pattern starts with a letter) and the closing word
boundary (the pattern ends with a digit or letter). -/
def flexSearchAux (pat : List Char) : Nat → Bool → List Char → Bool
  | 0, _, _ => false
  | Nat.succ fuel, prevWord, s =>
    (!prevWord &&
      (match flexMatchAt pat s with
       | some rest =>
         match rest with
         | [] => true
         | c :: _ => !isWordChar c
       | none => false)) ||
    (match s with
     | [] => false
     | c :: rest => flexSearchAux pat fuel (isWordChar c) rest)

/-- Whether the flexible pattern of a course id occurs, word-bounded, in a
text. -/
def flexSearch (pat : List Char) (text : List Char) : Bool :=
  flexSearchAux pat (text.length + 1) false text

/-- get_courses_requiring (src/deterministic_logic.py lines 26 to 44):
normalise the id, scan every course row that has a prerequisite sentence,
collect the ids whose sentence mentions the pattern. -/
def get_courses_requiring (env : Env) (course_id : String) : List String :=
  if course_id.data.isEmpty then []
  else
    let normalized : List Char :=
      upStr (course_id.data.map (fun c => if c = '-' then ' ' else c))
    env.courses.filterMap (fun c =>
      match c.prereq_text with
      | none => none
      | some t =>
        if !t.data.isEmpty && flexSearch normalized t.data then some c.id
        else none)

/-! ## A small regular-expression engine

detect_planning_query holds many pattern tables (department synonyms, level
phrases, type markers). They are embedded as abstract syntax trees over a
backtracking matcher. The matcher is fuelled so that it is structurally
recursive and kernel-computable; the fuel passed by the wrappers is far
larger than the depth any of these patterns can reach, and every theorem
about it goes through the very same applications, so no adequacy argument
is needed. -/

inductive Rx where
  | eps
  | lit (c : Char)
  | cls (p : Char → Bool)
  | seq (a b : Rx)
  | alt (a b : Rx)
  | opt (a : Rx)
  | star (a : Rx)
  | wb

/-- AST size, used only to provision fuel. -/
def Rx.size : Rx → Nat
  | .eps => 1
  | .lit _ => 1
  | .cls _ => 1
  | .wb => 1
  | .seq a b => a.size + b.size + 1
  | .alt a b => a.size + b.size + 1
  | .opt a => a.size + 1
  | .star a => a.size + 2

/-- Backtracking matcher in continuation style. prevW is the word-character
status of the character before the current position (for \b). The star is
greedy and only continues on strict progress, matching the Python engine on
the non-nullable bodies used here. -/
def mrun : Nat → Rx → Bool → List Char → (Bool → List Char → Bool) → Bool
  | 0, _, _, _, _ => false
  | Nat.succ fuel, r, prevW, s, k =>
    match r with
    | .eps => k prevW s
    | .lit c =>
      match s with
      | d :: rest => if d = c then k (isWordChar d) rest else false
      | [] => false
    | .cls p =>
      match s with
      | d :: rest => if p d then k (isWordChar d) rest else false
      | [] => false
    | .seq a b => mrun fuel a prevW s (fun pw s2 => mrun fuel b pw s2 k)
    | .alt a b => mrun fuel a prevW s k || mrun fuel b prevW s k
    | .opt a => mrun fuel a prevW s k || k prevW s
    | .star a =>
      mrun fuel a prevW s
        (fun pw s2 =>
          if s2.length < s.length then mrun fuel (.star a) pw s2 k else false) ||
      k prevW s
    | .wb =>
      let nextW := match s with
        | [] => false
        | c :: _ => isWordChar c
      if prevW != nextW then k prevW s else false

/-- Fuel that safely dominates the call depth of mrun for the patterns in
this file: AST height plus one star unrolling per input character. -/
def rxFuel (r : Rx) (s : List Char) : Nat :=
  r.size + s.length + 16

/-- re.search over a pattern without anchors: try each position in turn. -/
def rxSearchAux (r : Rx) : Nat → Bool → List Char → Bool
  | 0, _, _ => false
  | Nat.succ fuel, prevW, s =>
    mrun (rxFuel r s) r prevW s (fun _ _ => true) ||
    (match s with
     | [] => false
     | c :: rest => rxSearchAux r fuel (isWordChar c) rest)

def rxSearch (r : Rx) (s : List Char) : Bool :=
  rxSearchAux r (s.length + 1) false s

/-- Sequence of a list of patterns. -/
def rxSeq (l : List Rx) : Rx := l.foldr Rx.seq Rx.eps

/-- Literal string pattern. -/
def rxStr (s : String) : Rx := rxSeq (s.data.map Rx.lit)

/-- Ordered alternation of a list of patterns; the tail case never matches,
mirroring an empty alternative set. -/
def rxAlts (l : List Rx) : Rx := l.foldr Rx.alt (Rx.cls (fun _ => false))

/-- One or more whitespace characters, the regex \s+. -/
def rxWs1 : Rx := Rx.seq (Rx.cls isSpaceChar) (Rx.star (Rx.cls isSpaceChar))

/-- Zero or more whitespace characters, the regex \s*. -/
def rxWsStar : Rx := Rx.star (Rx.cls isSpaceChar)

/-- The regex dot (no DOTALL in the source): any character except newline. -/
def rxDot : Rx := Rx.cls (fun c => c ≠ '\n')

/-- One or more arbitrary characters, the regex .+ -/
def rxDotPlus : Rx := Rx.seq rxDot (Rx.star rxDot)

/-- A word-bounded literal phrase, the idiom \b...\b. -/
def rxWordB (inner : Rx) : Rx := rxSeq [Rx.wb, inner, Rx.wb]

/-! ## detect_planning_query (src/backend/rag_layer.py lines 609 to 765) -/

/-- dept_patterns: ordered (pattern, canonical department) table; the first
pattern that matches the lowered query wins. -/
def dept_patterns : List (Rx × String) :=
  [ (rxWordB (rxAlts [rxStr "cs",
      rxSeq [rxStr "comp", Rx.opt (rxStr "uter"),
             Rx.opt (rxSeq [rxWs1, rxStr "science"])]]), "COMP"),
    (rxWordB (rxAlts [rxSeq [rxStr "software", rxWs1, rxStr "engineerin",
      Rx.opt (Rx.lit 'g')], rxStr "swe"]), "ECSE"),
    (rxWordB (rxAlts [rxStr "ecse",
      rxSeq [rxStr "electrical", Rx.opt (rxSeq [rxWs1, rxStr "engineering"])],
      rxStr "ece"]), "ECSE"),
    (rxWordB (rxSeq [rxStr "mech", Rx.opt (rxStr "anical"),
      Rx.opt (rxSeq [rxWs1, rxStr "engineering"])]), "MECH"),
    (rxWordB (rxAlts [rxSeq [rxStr "civil",
      Rx.opt (rxSeq [rxWs1, rxStr "engineering"])], rxStr "cive"]), "CIVE"),
    (rxWordB (rxAlts [rxSeq [rxStr "mining",
      Rx.opt (rxSeq [rxWs1, rxStr "engineering"])], rxStr "mimi"]), "MIMI"),
    (rxWordB (rxSeq [rxStr "math", Rx.opt (rxStr "ematics")]), "MATH"),
    (rxWordB (rxSeq [rxStr "phys", Rx.opt (rxStr "ics")]), "PHYS"),
    (rxWordB (rxSeq [rxStr "chem", Rx.opt (rxStr "istry")]), "CHEM"),
    (rxWordB (rxSeq [rxStr "biol", Rx.opt (rxStr "ogy")]), "BIOL"),
    (rxWordB (rxAlts [rxSeq [rxStr "biochem", Rx.opt (rxStr "istry")],
      rxStr "bioc"]), "BIOC"),
    (rxWordB (rxAlts [rxSeq [rxStr "neurosci", Rx.opt (rxStr "ence")],
      rxStr "nrsc"]), "NRSC"),
    (rxWordB (rxAlts [rxSeq [rxStr "microbiol", Rx.opt (rxStr "ogy")],
      rxSeq [rxStr "immunol", Rx.opt (rxStr "ogy")], rxStr "mimm"]), "MIMM"),
    (rxWordB (rxSeq [rxStr "anat", Rx.opt (rxStr "omy")]), "ANAT"),
    (rxWordB (rxAlts [rxSeq [rxStr "physiol", Rx.opt (rxStr "ogy")],
      rxStr "phgy"]), "PHGY"),
    (rxWordB (rxAlts [rxStr "atmospheric",
      rxSeq [rxStr "oceanograph", Rx.opt (rxAlts [Rx.lit 'y', rxStr "ic"])],
      rxStr "atoc"]), "ATOC"),
    (rxWordB (rxAlts [rxSeq [rxStr "earth", rxWs1,
      Rx.opt (rxSeq [rxStr "and", rxWs1]), rxStr "planetary"],
      rxStr "epsc"]), "EPSC"),
    (rxWordB (rxAlts [rxSeq [rxStr "pharmac",
      rxAlts [Rx.lit 'y', rxStr "ology"]], rxStr "phar"]), "PHAR"),
    (rxWordB (rxSeq [rxStr "econ", Rx.opt (rxStr "omics")]), "ECON"),
    (rxWordB (rxSeq [rxStr "psyc", Rx.opt (rxStr "hology")]), "PSYC"),
    (rxWordB (rxSeq [rxStr "soci", Rx.opt (rxStr "ology")]), "SOCI"),
    (rxWordB (rxSeq [rxStr "anth", Rx.opt (rxStr "ropology")]), "ANTH"),
    (rxWordB (rxAlts [rxSeq [rxStr "poli", Rx.opt (rxStr "tical"), rxWsStar,
      rxStr "sci", Rx.opt (rxStr "ence")],
      rxSeq [rxStr "political", rxWs1, rxStr "science"]]), "POLI"),
    (rxWordB (rxSeq [rxStr "geog", Rx.opt (rxStr "raphy")]), "GEOG"),
    (rxWordB (rxSeq [rxStr "ling", Rx.opt (rxStr "uistics")]), "LING"),
    (rxWordB (rxSeq [rxStr "kine", Rx.opt (rxStr "siology")]), "KINE"),
    (rxWordB (rxAlts [rxSeq [rxStr "social", rxWs1, rxStr "work"],
      rxStr "swrk"]), "SWRK"),
    (rxWordB (rxAlts [rxSeq [rxStr "nutr", Rx.opt (rxStr "ition")],
      rxSeq [rxStr "diet", Rx.opt (rxStr "etics")]]), "NUTR"),
    (rxWordB (rxSeq [rxStr "hist", Rx.opt (rxStr "ory")]), "HIST"),
    (rxWordB (rxAlts [rxStr "english", rxStr "engl"]), "ENGL"),
    (rxWordB (rxAlts [rxSeq [rxStr "french", rxWs1,
      rxAlts [rxStr "language", rxStr "lit",
        rxSeq [rxStr "studie", Rx.opt (Rx.lit 's')]]],
      rxStr "fren"]), "FREN"),
    (rxWordB (rxSeq [rxStr "phil", Rx.opt (rxStr "osophy")]), "PHIL"),
    (rxWordB (rxSeq [rxStr "relig", rxAlts [rxStr "ion",
      rxSeq [rxStr "ious", rxWs1, rxStr "stud", Rx.opt (rxStr "ies")]]]),
      "RELI"),
    (rxWordB (rxAlts [rxSeq [rxStr "art", rxWs1, rxStr "hist",
      Rx.opt (rxStr "ory")], rxStr "arth"]), "ARTH"),
    (rxWordB (rxAlts [rxStr "music", rxStr "musc"]), "MUSC"),
    (rxWordB (rxAlts [rxStr "mgmt", rxStr "management"]), "MGMT"),
    (rxWordB (rxSeq [rxStr "nurs", Rx.opt (rxStr "ing")]), "NURS"),
    (rxWordB (rxAlts [rxSeq [rxStr "envir", Rx.opt (rxStr "onmental"),
      Rx.opt (rxSeq [rxWs1, rxStr "stud", Rx.opt (rxStr "ies")])],
      rxStr "envi"]), "ENVI"),
    (rxWordB (rxAlts [rxSeq [rxStr "educ", Rx.opt (rxStr "ation")],
      rxStr "edpe", rxStr "edsl"]), "EDPE") ]

/-- Term keyword sets: substring membership on the lowered query, in the
if/elif order of the source. -/
def fallTermWords : List String := ["fall", "autumn", "first semester", "semester 1", "f1"]

def winterTermWords : List String := ["winter", "second semester", "semester 2", "w2"]

def extractTerm (ql : List Char) : Option String :=
  if fallTermWords.any (fun t => isSubstr t.data ql) then some "fall"
  else if winterTermWords.any (fun t => isSubstr t.data ql) then some "winter"
  else if isSubstr "summer".data ql then some "summer"
  else none

/-- The pattern \b(\d)00[\s-]?level\b with its digit extraction: matching of
the literal tail "level" plus the closing boundary. -/
def matchLevelWord (s : List Char) : Bool :=
  match s with
  | 'l' :: 'e' :: 'v' :: 'e' :: 'l' :: rest =>
    match rest with
    | [] => true
    | c :: _ => !isWordChar c
  | _ => false

/-- One position of the \b(\d)00[\s-]?level\b scan; the separator branch
cannot overlap the literal branch because the word level does not start with
a separator character. -/
def levelDigitAt (s : List Char) : Option Nat :=
  match s with
  | c :: '0' :: '0' :: rest =>
    if isAsciiDigit c then
      if matchLevelWord rest then some ((c.toNat - 48) * 100)
      else
        match rest with
        | d :: rest2 =>
          if isSepChar d && matchLevelWord rest2 then some ((c.toNat - 48) * 100)
          else none
        | [] => none
    else none
  | _ => none

def levelDigitSearchAux : Nat → Bool → List Char → Option Nat
  | 0, _, _ => none
  | Nat.succ fuel, prevW, s =>
    (if !prevW then levelDigitAt s else none).orElse
      (fun _ =>
        match s with
        | [] => none
        | c :: rest => levelDigitSearchAux fuel (isWordChar c) rest)

def levelDigitSearch (s : List Char) : Option Nat :=
  levelDigitSearchAux (s.length + 1) false s

/-- level_patterns, in source order; the last pattern extracts its digit
from the match instead of using a fixed value. -/
def extractLevel (ql : List Char) : Option Nat :=
  if rxSearch (rxWordB (rxStr "u2")) ql then some 200
  else if rxSearch (rxWordB (rxStr "u3")) ql then some 300
  else if rxSearch (rxWordB (rxStr "u4")) ql then some 400
  else if rxSearch (rxWordB (rxSeq [rxAlts [rxStr "second", rxStr "2nd",
    rxStr "sophomore"], rxWsStar, Rx.opt (rxStr "year")])) ql then some 200
  else if rxSearch (rxWordB (rxSeq [rxAlts [rxStr "third", rxStr "3rd",
    rxStr "junior"], rxWsStar, Rx.opt (rxStr "year")])) ql then some 300
  else if rxSearch (rxWordB (rxSeq [rxAlts [rxStr "fourth", rxStr "4th",
    rxStr "senior"], rxWsStar, Rx.opt (rxStr "year")])) ql then some 400
  else if rxSearch (rxWordB (rxAlts [rxStr "graduate", rxStr "grad",
    rxSeq [rxStr "master", Rx.opt (Rx.lit 's')], rxStr "phd"])) ql then some 500
  else levelDigitSearch ql

/-- first_semester_patterns, in source order; most carry no \b anchors. -/
def first_semester_patterns : List Rx :=
  [ rxWordB (rxStr "u0"),
    rxWordB (rxStr "u1"),
    rxSeq [rxStr "foundation", rxWs1, rxStr "program"],
    rxSeq [rxStr "first", rxWsStar, rxAlts [rxStr "semester", rxStr "year"]],
    rxSeq [rxStr "start", Rx.opt (rxStr "ing"), rxWsStar,
           rxAlts [rxStr "with", rxStr "out"]],
    rxSeq [rxStr "begin", Rx.opt (rxAlts [rxStr "ning", rxStr "ner"])],
    rxSeq [rxStr "intro", Rx.opt (rxAlts [rxStr "ductory", rxStr "duction"])],
    rxSeq [rxStr "entry", Rx.opt (Rx.cls isSepChar), rxStr "level"],
    rxSeq [rxStr "no", rxWsStar, rxStr "prereq"],
    rxSeq [rxStr "should", rxWs1, Rx.lit 'i', rxWs1, rxStr "take", rxWs1,
           rxStr "first"],
    rxSeq [rxStr "take", rxWs1, rxStr "first"] ]

/-- The class [A-Z] without IGNORECASE, as written inside
available_patterns; it is searched on the lowered query and therefore
cannot match a letter there. -/
def rxUpperAZ : Rx := Rx.cls (fun c => 'A' ≤ c && c ≤ 'Z')

def rxDigit : Rx := Rx.cls isAsciiDigit

/-- available_patterns, in source order. The first one requires two
upper-case course codes; since it is applied to the lowered query it never
fires, exactly as in the source. -/
def available_patterns : List Rx :=
  [ rxSeq [rxAlts [rxStr "after", rxStr "with", rxStr "having",
      rxSeq [rxStr "complete", Rx.opt (Rx.lit 'd')], rxStr "done",
      rxStr "finished", rxStr "took"], rxWs1,
      rxUpperAZ, rxUpperAZ, rxUpperAZ, Rx.opt rxUpperAZ, rxWsStar,
      rxDigit, rxDigit, rxDigit, rxDotPlus,
      rxUpperAZ, rxUpperAZ, rxUpperAZ, Rx.opt rxUpperAZ, rxWsStar,
      rxDigit, rxDigit, rxDigit],
    rxSeq [rxStr "available", rxWs1, rxStr "to", rxWs1,
      rxAlts [rxStr "me", rxStr "take"]] ]

/-- recommendation_patterns, in source order. -/
def recommendation_patterns : List Rx :=
  [ rxSeq [rxStr "should", rxWs1, Rx.lit 'i', rxWs1, rxStr "take"],
    rxStr "recommend",
    rxStr "suggest",
    rxSeq [rxStr "best", rxWs1, rxStr "course", Rx.opt (Rx.lit 's')],
    rxSeq [rxStr "good", rxWs1, rxStr "course", Rx.opt (Rx.lit 's')],
    rxSeq [rxStr "what", rxWs1, rxStr "course", Rx.opt (Rx.lit 's'), rxWs1,
           rxAlts [rxStr "should", rxStr "to"]] ]

/-- The transient planning interpretation of a question
(the PlanningQuery of the data model). -/
structure PlanningResult where
  type : Option String
  department : Option String
  term : Option String
  level : Option Nat
  completed : List String
deriving DecidableEq

/-- Python truthiness of the level field: None and 0 are falsy. -/
def levelTruthy : Option Nat → Bool
  | some n => n != 0
  | none => false

/-- detect_planning_query: department, term and level extraction followed by
the type decision tree, in the fixed order first_semester, available,
by_level, recommendation, then the partial department or term fallback. -/
def detect_planning_query (query : String) : Option PlanningResult :=
  let ql := lowStr query.data
  let department := (dept_patterns.find? (fun p => rxSearch p.1 ql)).map (fun p => p.2)
  let term := extractTerm ql
  let level := extractLevel ql
  if first_semester_patterns.any (fun r => rxSearch r ql) then
    some ⟨some "first_semester", department, term, level, []⟩
  else if available_patterns.any (fun r => rxSearch r ql) then
    let completed := (courseIdFindAll true (upStr query.data)).map canonCode
    some ⟨some "available", department, term, level, completed⟩
  else if levelTruthy level then
    some ⟨some "by_level", department, term, level, []⟩
  else if recommendation_patterns.any (fun r => rxSearch r ql) then
    some ⟨some "recommendation", department, term, level, []⟩
  else if department.isSome || term.isSome then
    some ⟨none, department, term, level, []⟩
  else none

/-! ## The title index and find_course_by_title
(src/backend/rag_layer.py lines 227 to 346)

The module-level caches are a memoisation of a pure function of the course
rows; the embedding rebuilds them on each use, which is observationally the
same. -/

/-- normalize_title: lower case, strip, drop all trailing periods. -/
def normalize_title (t : List Char) : List Char :=
  rstripChar '.' (stripStr (lowStr t))

/-- First pass of load_title_cache: group course ids by normalized title,
preserving dict insertion order, appending within a group. -/
def addToGroups (key : List Char) (id : String) :
    List (List Char × List String) → List (List Char × List String)
  | [] => [(key, [id])]
  | (k, ids) :: rest =>
    if k = key then (k, ids ++ [id]) :: rest
    else (k, ids) :: addToGroups key id rest

def titleGroups (rows : List (String × String)) :
    List (List Char × List String) :=
  rows.foldl
    (fun acc r =>
      if r.2.data.isEmpty then acc
      else addToGroups (normalize_title r.2.data) r.1 acc)
    []

/-- Lexicographic comparison of character lists by code point, the order of
Python string comparison. -/
def listCharLt : List Char → List Char → Bool
  | [], [] => false
  | [], _ :: _ => true
  | _ :: _, [] => false
  | a :: as, b :: bs =>
    if a.toNat < b.toNat then true
    else if a.toNat = b.toNat then listCharLt as bs
    else false

def strLt (a b : String) : Bool := listCharLt a.data b.data

/-- Lexicographically smallest element, the sorted(course_ids)[0] of the
source. -/
def minLexAux (x : String) : List String → String
  | [] => x
  | y :: ys => minLexAux (if strLt y x then y else x) ys

def minLex : List String → String
  | [] => ""
  | x :: xs => minLexAux x xs

/-- Second pass of load_title_cache: the deterministic default of a group —
the first id of the group when it is a singleton, else the first COMP
course if any, else the lexicographically first id. -/
def titleDefault (ids : List String) : String :=
  if ids.length > 1 then
    match ids.find? (fun c => "COMP ".data.isPrefixOf c.data) with
    | some c => c
    | none => minLex ids
  else
    match ids with
    | [] => ""
    | x :: _ => x

def lookupAssoc {β : Type} (l : List (List Char × β)) (k : List Char) :
    Option β :=
  (l.find? (fun p => p.1 = k)).map (fun p => p.2)

/-- The title_to_id cache: normalized title to default id. -/
def titleToId (groups : List (List Char × List String)) :
    List (List Char × String) :=
  groups.map (fun g => (g.1, titleDefault g.2))

/-- The duplicate_titles cache: the groups of size above one. -/
def duplicateTitles (groups : List (List Char × List String)) :
    List (List Char × List String) :=
  groups.filter (fun g => g.2.length > 1)

/-- check_ambiguous (src/backend/rag_layer.py lines 322 to 327) applied to a
normalized title present in the index: the default id, plus the full group
when the title is ambiguous. -/
def resolveTitle (rows : List (String × String)) (t : List Char) :
    Option String × Option (List String) :=
  let groups := titleGroups rows
  (lookupAssoc (titleToId groups) t, lookupAssoc (duplicateTitles groups) t)

/-! Query cleaning: the prefix and suffix scaffolding substitutions. Each
prefix pattern is a literal phrase followed by \s+, substituted globally
with the empty string; each suffix pattern is anchored at the end. The
queries are already lower case at this point; comparisons still go through
lower-casing to mirror the IGNORECASE flag. -/

/-- Match one prefix pattern (literal phrase then \s+) at the current
position; returns the rest after the maximal whitespace run. -/
def matchLitWs1 : List Char → List Char → Option (List Char)
  | [], s =>
    match s with
    | c :: _ => if isSpaceChar c then some (s.dropWhile isSpaceChar) else none
    | [] => none
  | p :: ps, s =>
    match s with
    | c :: rest => if lowChar c = lowChar p then matchLitWs1 ps rest else none
    | [] => none

/-- re.sub(pattern, "", s) for a prefix pattern: scan left to right,
dropping each non-overlapping match. -/
def subLitWs1Aux (lit : List Char) : Nat → List Char → List Char
  | 0, _ => []
  | Nat.succ fuel, s =>
    match s with
    | [] => []
    | c :: rest =>
      match matchLitWs1 lit (c :: rest) with
      | some rest2 => subLitWs1Aux lit fuel rest2
      | none => c :: subLitWs1Aux lit fuel rest

def subLitWs1 (lit s : List Char) : List Char :=
  subLitWs1Aux lit (s.length + 1) s

/-- Match of a suffix pattern \s+word\??$ starting at the current
position. -/
def matchSuffixWordAt (lit : List Char) (s : List Char) : Bool :=
  match s with
  | c :: _ =>
    if isSpaceChar c then
      match matchLitPlain lit (s.dropWhile isSpaceChar) with
      | some rest =>
        match rest with
        | [] => true
        | ['?'] => true
        | _ => false
      | none => false
    else false
  | [] => false
where
  matchLitPlain : List Char → List Char → Option (List Char)
    | [], s => some s
    | p :: ps, s =>
      match s with
      | c :: rest => if lowChar c = lowChar p then matchLitPlain ps rest else none
      | [] => none

/-- re.sub(r"\s+word\??$", "", s): remove the suffix at its leftmost
admissible start. -/
def subSuffixWordAux (lit : List Char) : Nat → List Char → List Char
  | 0, _ => []
  | Nat.succ fuel, s =>
    match s with
    | [] => []
    | c :: rest =>
      if matchSuffixWordAt lit (c :: rest) then []
      else c :: subSuffixWordAux lit fuel rest

def subSuffixWord (lit s : List Char) : List Char :=
  subSuffixWordAux lit (s.length + 1) s

/-- re.sub(r"\??$", "", s): drop one trailing question mark. -/
def subQMarkEnd (s : List Char) : List Char :=
  if s.getLast? = some '?' then s.dropLast else s

def prefix_patterns_lit : List String :=
  ["what are the prerequisites for", "what are the prereqs for",
   "what do i need for", "prerequisites for", "prereqs for",
   "requirements for", "what is", "tell me about", "describe",
   "when is", "is"]

def applyPrefixSubs (s : List Char) : List Char :=
  prefix_patterns_lit.foldl (fun acc p => subLitWs1 p.data acc) s

def applySuffixSubs (s : List Char) : List Char :=
  subQMarkEnd (subSuffixWord "like".data
    (subSuffixWord "offered".data (subSuffixWord "about".data s)))

/-- The cleaned query of find_course_by_title: lower, strip, scaffolding
substitutions, normalize_title. -/
def cleanedQuery (query : String) : List Char :=
  normalize_title (applySuffixSubs (applyPrefixSubs (stripStr (lowStr query.data))))

/-- The normalized raw query used by the title-in-query strategy: lower,
strip, normalize_title, without the scaffolding substitutions. -/
def queryNormalized (query : String) : List Char :=
  normalize_title (stripStr (lowStr query.data))

/-- Stable insertion preserving nonincreasing length: the new element goes
after every earlier element of equal or greater length. -/
def insertLenDesc (x : List Char) : List (List Char) → List (List Char)
  | [] => [x]
  | y :: ys => if y.length < x.length then x :: y :: ys else y :: insertLenDesc x ys

/-- sorted(keys, key=len, reverse=True): stable descending sort by
length. -/
def sortLenDesc (l : List (List Char)) : List (List Char) :=
  l.foldl (fun acc x => insertLenDesc x acc) []

/-- find_course_by_title (src/backend/rag_layer.py lines 272 to 346). -/
def find_course_by_title (rows : List (String × String)) (query : String) :
    Option String × Option (List String) :=
  let groups := titleGroups rows
  let t2i := titleToId groups
  let dups := duplicateTitles groups
  if t2i.isEmpty then (none, none)
  else
    let cleaned := cleanedQuery query
    match lookupAssoc t2i cleaned with
    | some cid => (some cid, lookupAssoc dups cleaned)
    | none =>
      let titles_by_length := sortLenDesc (t2i.map (fun p => p.1))
      match titles_by_length.find?
          (fun t => decide (t.length ≥ 5) && isSubstr t (queryNormalized query)) with
      | some t => (lookupAssoc t2i t, lookupAssoc dups t)
      | none =>
        if cleaned.length ≥ 5 then
          match t2i.find? (fun p => isSubstr cleaned p.1) with
          | some p => (some p.2, lookupAssoc dups p.1)
          | none => (none, none)
        else (none, none)

/-- The claim C5 reading of find_course_by_title, in which the third
strategy has no minimum length on the cleaned query. Identical to the
source elsewhere. -/
def find_course_by_title_claimC5 (rows : List (String × String))
    (query : String) : Option String × Option (List String) :=
  let groups := titleGroups rows
  let t2i := titleToId groups
  let dups := duplicateTitles groups
  if t2i.isEmpty then (none, none)
  else
    let cleaned := cleanedQuery query
    match lookupAssoc t2i cleaned with
    | some cid => (some cid, lookupAssoc dups cleaned)
    | none =>
      let titles_by_length := sortLenDesc (t2i.map (fun p => p.1))
      match titles_by_length.find?
          (fun t => decide (t.length ≥ 5) && isSubstr t (queryNormalized query)) with
      | some t => (lookupAssoc t2i t, lookupAssoc dups t)
      | none =>
        match t2i.find? (fun p => isSubstr cleaned p.1) with
        | some p => (some p.2, lookupAssoc dups p.1)
        | none => (none, none)

/-- extract_course_id (src/backend/rag_layer.py lines 367 to 391):
regex first (never ambiguous), then title resolution. -/
def extract_course_id (rows : List (String × String)) (query : String) :
    Option String × Option (List String) :=
  match searchCourseId query with
  | some cid => (some cid, none)
  | none =>
    match find_course_by_title rows query with
    | (some cid, alternatives) => (some cid, alternatives)
    | (none, _) => (none, none)

/-! ## Planning fetches (src/backend/rag_layer.py lines 418 to 606) -/

/-- Python str.split with no argument: tokens between whitespace runs. -/
def splitWsAux : Nat → List Char → List (List Char)
  | 0, _ => []
  | Nat.succ fuel, s =>
    let s1 := s.dropWhile isSpaceChar
    if s1.isEmpty then []
    else
      (s1.takeWhile (fun c => !isSpaceChar c)) ::
        splitWsAux fuel (s1.dropWhile (fun c => !isSpaceChar c))

def splitWs (s : List Char) : List (List Char) :=
  splitWsAux (s.length + 1) s

def natOfDigits (l : List Char) : Nat :=
  l.foldl (fun n c => n * 10 + (c.toNat - 48)) 0

/-- The sort key of get_entry_level_courses: int(id.split()[1][:3]) with 999
on any failure. -/
def courseNumKey (id : String) : Nat :=
  match splitWs id.data with
  | _ :: tok :: _ =>
    let t3 := tok.take 3
    if !t3.isEmpty && t3.all isAsciiDigit then natOfDigits t3 else 999
  | _ => 999

/-- Stable insertion by a numeric key: a new element goes after earlier
elements of equal key, as in the stable Python sort. -/
def insertByKey {α : Type} (key : α → Nat) (x : α) : List α → List α
  | [] => [x]
  | y :: ys => if key x < key y then x :: y :: ys else y :: insertByKey key x ys

def sortByKey {α : Type} (key : α → Nat) (l : List α) : List α :=
  l.foldl (fun acc x => insertByKey key x acc) []

/-- Stable insertion by the string id, for the sorts keyed on x[id]. -/
def insertById {α : Type} (id : α → String) (x : α) : List α → List α
  | [] => [x]
  | y :: ys => if strLt (id x) (id y) then x :: y :: ys else y :: insertById id x ys

def sortById {α : Type} (id : α → String) (l : List α) : List α :=
  l.foldl (fun acc x => insertById id x acc) []

/-- The term filter shared by the three fetches: skip a course whose flag
for the requested term is off. -/
def termOk (term : Option String) (c : CourseRow) : Bool :=
  match term with
  | none => true
  | some t =>
    let tl := lowStr t.data
    !(tl = "fall".data && !c.offered_fall) &&
    !(tl = "winter".data && !c.offered_winter) &&
    !(tl = "summer".data && !c.offered_summer)

/-- The entry-level test of get_entry_level_courses on the stripped,
lowered prerequisite sentence: empty, the word none, or a CEGEP-only
requirement mentioning neither comp nor math. -/
def entryPrereqOk (prereq_text : Option String) : Bool :=
  let p := lowStr (stripStr ((prereq_text.getD "").data))
  p.isEmpty || p = "none".data ||
    (isSubstr "cegep".data p && !isSubstr "comp".data (lowStr p) &&
     !isSubstr "math".data (lowStr p))

/-- get_entry_level_courses: department prefix filter, entry-level test,
term filter, sort by course number, limit. -/
def get_entry_level_courses (env : Env) (department : Option String)
    (term : Option String) (limit : Nat) : List CourseInfo :=
  let pool := match department with
    | none => env.courses
    | some d =>
      env.courses.filter (fun c => (upStr d.data ++ [' ']).isPrefixOf c.id.data)
  let entry := pool.filter (fun c => entryPrereqOk c.prereq_text && termOk term c)
  ((sortByKey (fun c => courseNumKey c.id) entry).map CourseRow.toInfo).take limit

/-- str(level)[0], the level prefix digit of get_courses_by_level. -/
def levelPrefixChar (level : Nat) : Char :=
  (Nat.toDigits 10 level).headD '0'

/-- get_courses_by_level: id LIKE DEPT, space, level digit; term filter;
sort by id; limit. -/
def get_courses_by_level (env : Env) (department : String) (level : Nat)
    (term : Option String) (limit : Nat) : List CourseInfo :=
  let pool := env.courses.filter
    (fun c => (upStr department.data ++ [' ', levelPrefixChar level]).isPrefixOf c.id.data)
  let kept := pool.filter (fun c => termOk term c)
  ((sortById (fun c => c.id) kept).map CourseRow.toInfo).take limit

/-- The prerequisite codes extracted by get_available_courses: the \s*
variant of the course-code regex over the upper-cased prerequisite
sentence. -/
def prereqIdsOf (prereq_text : List Char) : List String :=
  (courseIdFindAll true (upStr prereq_text)).map canonCode

/-- get_available_courses: skip completed, term filter, then a course is
available when it has no prerequisite sentence, or its mentioned codes are
all completed, or at least one of them is (the OR-logic approximation noted
in the source); sort by id, limit. -/
def get_available_courses (env : Env) (completed_courses : List String)
    (department : Option String) (term : Option String) (limit : Nat) :
    List CourseInfo :=
  let completedSet := completed_courses.map (fun c => String.mk (upStr (stripStr c.data)))
  let pool := match department with
    | none => env.courses
    | some d =>
      env.courses.filter (fun c => (upStr d.data ++ [' ']).isPrefixOf c.id.data)
  let available := pool.filter (fun c =>
    if c.id ∈ completedSet then false
    else if !termOk term c then false
    else
      let pt := stripStr ((c.prereq_text.getD "").data)
      if pt.isEmpty then true
      else
        let prereq_ids := prereqIdsOf pt
        if !prereq_ids.isEmpty && prereq_ids.all (fun p => p ∈ completedSet) then true
        else !prereq_ids.isEmpty && prereq_ids.any (fun p => p ∈ completedSet))
  ((sortById (fun c => c.id) available).map CourseRow.toInfo).take limit

/-! ## hybrid_search (src/backend/rag_layer.py lines 770 to 907) -/

/-- One element of the RetrievalResult sequence: a scored course reference,
the merged course dict when a structured fetch produced one, and the
disambiguation flags. -/
structure SearchResult where
  course_id : String
  score : Rat
  info : Option CourseInfo := none
  needs_clarification : Bool := false
  alternatives : Option (List String) := none
deriving DecidableEq

/-- The alternatives-truthiness test of the source:
if alternatives and len(alternatives) greater than 1. -/
def altsAmbiguous : Option (List String) → Bool
  | some l => l.length > 1
  | none => false

/-- Mark the first result with the disambiguation flags when the primary
course was ambiguous. -/
def markFirstAmbiguous (alternatives : Option (List String)) :
    List SearchResult → List SearchResult
  | [] => []
  | r :: rest =>
    if altsAmbiguous alternatives then
      { r with needs_clarification := true, alternatives := alternatives } :: rest
    else r :: rest

/-- The planning gate of hybrid_search: planning detection is skipped when
the query names a course whose department is not in the deny list. -/
def has_specific_course (query : String) : Bool :=
  (courseIdFindAll false (upStr query.data)).any
    (fun p => String.mk p.1 ∉ DEPT_FALSE_POSITIVES)

/-- The phrase lists of the intent tests inside hybrid_search. -/
def prereqsForPhrases : List String :=
  ["prerequisite for", "prerequisites for", "prereqs for",
   "what do i need for", "requirements for"]

def whatRequiresPhrases : List String :=
  ["require", "need", "courses that use", "after", "next",
   "finished", "completed", "done with", "taken", "what can i take"]

/-- The planning dispatch of hybrid_search: the structured fetch of the
detected type; an empty fetch returns none so that control falls through. -/
def planningDispatch (env : Env) (planning : PlanningResult)
    (dept : Option String) : Option (List SearchResult) :=
  let department := planning.department.or dept
  let term := planning.term
  let out := fun (courses : List CourseInfo) =>
    if courses.isEmpty then none
    else some (courses.map (fun c => { course_id := c.id, score := 0 }))
  match planning.type with
  | some t =>
    if t = "first_semester" then
      out (get_entry_level_courses env department term 12)
    else if t = "by_level" then
      match department with
      | some d => out (get_courses_by_level env d (planning.level.getD 100) term 12)
      | none => none
    else if t = "available" then
      if planning.completed.isEmpty then none
      else out (get_available_courses env planning.completed department term 15)
    else if t = "recommendation" then
      match department with
      | some d =>
        if levelTruthy planning.level && planning.level.getD 0 ≥ 200 then
          out (get_courses_by_level env d (planning.level.getD 100) term 12)
        else out (get_entry_level_courses env department term 12)
      | none => none
    else none
  | none => none

/-- hybrid_search: planning gate and dispatch, primary course extraction,
intent tests, the prerequisites-for fetch, the reverse-prerequisite lookup,
the direct multi-course fetch, and the semantic fallback with
department-scoped injection. -/
def hybrid_search (env : Env) (query : String) (dept : Option String)
    (prereq_of : Option String) (n_results : Nat) :
    List SearchResult :=
  let planning :=
    if has_specific_course query then none else detect_planning_query query
  let planned := match planning with
    | some p => if p.type.isSome then planningDispatch env p dept else none
    | none => none
  match planned with
  | some results => results
  | none =>
    let titleRows := env.courses.map (fun c => (c.id, c.title))
    let ca := extract_course_id titleRows query
    let course_id := ca.1
    let alternatives := ca.2
    let query_lower := lowStr query.data
    let is_asking_prereqs_for := course_id.isSome &&
      prereqsForPhrases.any (fun p => isSubstr p.data query_lower)
    let is_asking_what_requires := course_id.isSome &&
      whatRequiresPhrases.any (fun p => isSubstr p.data query_lower) &&
      !isSubstr "for".data query_lower
    let direct : Option (List SearchResult) :=
      if is_asking_prereqs_for then
        match course_id with
        | some cid =>
          match get_course_directly env cid with
          | some course =>
            some (markFirstAmbiguous alternatives
              [{ course_id := course.id, score := 0, info := some course }])
          | none => none
        | none => none
      else none
    match direct with
    | some results => results
    | none =>
      let prereq_of2 :=
        if is_asking_what_requires && course_id.isSome then course_id
        else prereq_of
      match prereq_of2 with
      | some pid =>
        let prereq_targets := get_courses_requiring env pid
        if prereq_targets.isEmpty then []
        else
          (enrich_context env prereq_targets).map
            (fun e => { course_id := e.id, score := 0, info := some e })
      | none =>
        let all_course_ids := extract_all_course_ids query
        let direct_results := all_course_ids.filterMap
          (fun cid => (get_course_directly env cid).map
            (fun c => ({ course_id := c.id, score := 0, info := some c } : SearchResult)))
        if !all_course_ids.isEmpty && !direct_results.isEmpty then
          markFirstAmbiguous alternatives direct_results
        else
          let combined := (env.semantic query n_results).map
            (fun h => ({ course_id := h.course_id, score := h.score } : SearchResult))
          match planning with
          | some p =>
            match p.department with
            | some d =>
              let dept_courses := get_entry_level_courses env (some d) none 15
              let existing_ids := combined.map (fun r => r.course_id)
              combined ++ (dept_courses.filter (fun c => c.id ∉ existing_ids)).map
                (fun c => { course_id := c.id, score := (1 : Rat) / 2 })
            | none => combined
          | none => combined

/-! ## replace_aliases (src/backend/qa_agent.py lines 24 to 53) -/

/-- COURSE_ALIASES in dict insertion order. -/
def COURSE_ALIASES : List (String × String) :=
  [("calc 1", "MATH 140"), ("calculus 1", "MATH 140"),
   ("calc 2", "MATH 141"), ("calculus 2", "MATH 141"),
   ("calc 3", "MATH 222"), ("calculus 3", "MATH 222"),
   ("linear algebra", "MATH 133"), ("lin alg", "MATH 133"),
   ("discrete math", "MATH 240"), ("discrete", "MATH 240"),
   ("ode", "MATH 323"), ("pde", "MATH 324"),
   ("real analysis", "MATH 242"),
   ("intro to cs", "COMP 202"), ("intro cs", "COMP 202"),
   ("data structures", "COMP 250"),
   ("algorithms", "COMP 251"),
   ("operating systems", "COMP 310"), ("os", "COMP 310"),
   ("databases", "COMP 421"),
   ("ai", "COMP 424"),
   ("machine learning", "COMP 551"), ("ml", "COMP 551"),
   ("compilers", "COMP 520"),
   ("computer graphics", "COMP 557"), ("graphics", "COMP 557")]

def aliasCode (k : List Char) : String :=
  ((COURSE_ALIASES.find? (fun p => p.1.data = k)).map (fun p => p.2)).getD ""

/-- Case-insensitive literal match of a pattern at the current position. -/
def matchLitCI : List Char → List Char → Option (List Char)
  | [], s => some s
  | p :: ps, s =>
    match s with
    | c :: rest => if lowChar c = lowChar p then matchLitCI ps rest else none
    | [] => none

/-- Closing word boundary after a pattern that ends in a word character:
the next character must not be a word character. -/
def closesWordB : List Char → Bool
  | [] => true
  | c :: _ => !isWordChar c

/-- re.search of a word-bounded, case-insensitive literal. All alias
patterns start and end with word characters, so the boundaries reduce to
the word status of the neighbouring characters. -/
def wbSearchCIAux (pat : List Char) : Nat → Bool → List Char → Bool
  | 0, _, _ => false
  | Nat.succ fuel, prevW, s =>
    (!prevW &&
      (match matchLitCI pat s with
       | some rest => closesWordB rest
       | none => false)) ||
    (match s with
     | [] => false
     | c :: rest => wbSearchCIAux pat fuel (isWordChar c) rest)

def wbSearchCI (pat s : List Char) : Bool :=
  wbSearchCIAux pat (s.length + 1) false s

/-- re.sub of a word-bounded, case-insensitive literal with a replacement:
scan left to right, substituting each non-overlapping match; scanning
resumes after the matched span with the word status of its last original
character. -/
def subWBAux (pat rep : List Char) : Nat → Bool → List Char → List Char
  | 0, _, _ => []
  | Nat.succ fuel, prevW, s =>
    match s with
    | [] => []
    | c :: rest =>
      if !prevW then
        match matchLitCI pat (c :: rest) with
        | some rest2 =>
          if closesWordB rest2 then
            rep ++ subWBAux pat rep fuel
              (match pat.getLast? with
               | some d => isWordChar d
               | none => prevW) rest2
          else c :: subWBAux pat rep fuel (isWordChar c) rest
        | none => c :: subWBAux pat rep fuel (isWordChar c) rest
      else c :: subWBAux pat rep fuel (isWordChar c) rest

def subWB (pat rep s : List Char) : List Char :=
  subWBAux pat rep (s.length + 1) false s

/-- replace_aliases: longest-alias-first (stable on dict order among equal
lengths, as Python sorted is), word-boundary, case-insensitive,
search-then-substitute per alias. -/
def replace_aliases (query : String) : String :=
  let ordered := sortLenDesc (COURSE_ALIASES.map (fun p => p.1.data))
  String.mk (ordered.foldl
    (fun acc k => if wbSearchCI k acc then subWB k (aliasCode k).data acc else acc)
    query.data)

/-! ## Claim-reading variants and concrete environments -/

/-- The reverse-prerequisite lookup as claim C2 reads the spec: consult the
PrerequisiteEdge relation when it is populated, and only when edges are
absent fall back to the regex scan of the free-text prerequisite
sentences. -/
def get_courses_requiring_claimC2 (env : Env) (course_id : String) :
    List String :=
  if course_id.data.isEmpty then []
  else if !env.edges.isEmpty then
    (env.edges.filter (fun e =>
      e.src_course_id = course_id && e.kind = "prereq")).map
      (fun e => e.dst_course_id)
  else get_courses_requiring env course_id

/-- A capstone course whose prerequisite sentence does not mention any
course code. -/
def courseCapstone : CourseRow where
  id := "COMP 999"
  title := "Capstone Project"
  description := "Project course."
  credits := 3
  offered_by := "COMP"
  offered_fall := true
  offered_winter := false
  offered_summer := false
  prereq_text := some "Permission of instructor."
  coreq_text := none

/-- An introductory course with no prerequisite sentence. -/
def courseIntro : CourseRow where
  id := "COMP 202"
  title := "Foundations of Programming"
  description := "Intro programming."
  credits := 3
  offered_by := "COMP"
  offered_fall := true
  offered_winter := true
  offered_summer := false
  prereq_text := none
  coreq_text := none

/-- A store whose only course does not mention COMP 250 in its prerequisite
sentence, with a populated edge relation recording that COMP 250 is a
prerequisite of COMP 999, and a similarity oracle with one hit. -/
def envEdgeOnly : Env where
  courses := [courseCapstone]
  edges := [{ src_course_id := "COMP 250", dst_course_id := "COMP 999", kind := "prereq" }]
  semantic := fun _ _ => [{ course_id := "COMP 999", score := (3 : Rat) / 10 }]

/-- A course whose prerequisite sentence mentions COMP 250 in the
hyphenated spelling. -/
def courseAlgo : CourseRow where
  id := "COMP 251"
  title := "Algorithms and Data Structures"
  description := "Algorithm design."
  credits := 3
  offered_by := "COMP"
  offered_fall := true
  offered_winter := true
  offered_summer := false
  prereq_text := some "Prerequisite: COMP-250."
  coreq_text := none

/-- A store with one course requiring COMP 250 through its free-text
prerequisite sentence only. -/
def envTextScan : Env where
  courses := [courseAlgo]
  edges := []
  semantic := fun _ _ => []

/-- A store in which no course requires COMP 250, with a non-empty
similarity oracle: the reverse lookup finds zero rows while semantic search
would have returned a hit. -/
def envNoReverse : Env where
  courses := [courseIntro]
  edges := []
  semantic := fun _ _ => [{ course_id := "COMP 202", score := (3 : Rat) / 10 }]

/-! ## Generic supporting lemmas -/

theorem isSubstr_of_append (p a b : List Char) :
    isSubstr p (a ++ p ++ b) = true := by
  induction a with
  | nil =>
    cases p with
    | nil => cases b <;> simp [isSubstr]
    | cons c cs =>
      simp only [List.nil_append, isSubstr]
      apply Bool.or_eq_true_iff.mpr
      left
      exact List.isPrefixOf_iff_prefix.mpr (List.prefix_append _ _)
  | cons c a ih =>
    simp only [List.cons_append, isSubstr]
    exact Bool.or_eq_true_iff.mpr (Or.inr ih)

theorem dedupAux_subset {α : Type} [DecidableEq α] (seen l : List α) :
    ∀ x ∈ dedupAux seen l, x ∈ l := by
  induction l generalizing seen with
  | nil => intro x hx; simp [dedupAux] at hx
  | cons y ys ih =>
    intro x hx
    simp only [dedupAux] at hx
    by_cases hy : y ∈ seen
    · simp [hy] at hx
      exact List.mem_cons_of_mem _ (ih seen x hx)
    · simp [hy] at hx
      rcases hx with h | h
      · simp [h]
      · exact List.mem_cons_of_mem _ (ih (y :: seen) x h)

theorem dedupAux_mem {α : Type} [DecidableEq α] (seen l : List α) :
    ∀ x ∈ l, x ∉ seen → x ∈ dedupAux seen l := by
  induction l generalizing seen with
  | nil => intro x hx; simp at hx
  | cons y ys ih =>
    intro x hx hns
    simp only [dedupAux]
    by_cases hy : y ∈ seen
    · simp only [hy, if_true]
      rcases List.mem_cons.mp hx with rfl | h
      · exact absurd hy hns
      · exact ih seen x h hns
    · simp only [hy, if_false]
      rcases List.mem_cons.mp hx with rfl | h
      · exact List.mem_cons_self _ _
      · by_cases hxy : x = y
        · subst hxy; exact List.mem_cons_self _ _
        · refine List.mem_cons_of_mem _ (ih (y :: seen) x h ?_)
          simp [hxy, hns]

theorem dedupAux_not_mem_seen {α : Type} [DecidableEq α] (seen l : List α) :
    ∀ x ∈ dedupAux seen l, x ∉ seen := by
  induction l generalizing seen with
  | nil => intro x hx; simp [dedupAux] at hx
  | cons y ys ih =>
    intro x hx
    simp only [dedupAux] at hx
    by_cases hy : y ∈ seen
    · simp [hy] at hx
      exact ih seen x hx
    · simp [hy] at hx
      rcases hx with rfl | h
      · exact hy
      · intro hxs
        exact (ih (y :: seen) x h) (List.mem_cons_of_mem _ hxs)

theorem dedupAux_nodup {α : Type} [DecidableEq α] (seen l : List α) :
    (dedupAux seen l).Nodup := by
  induction l generalizing seen with
  | nil => simp [dedupAux]
  | cons y ys ih =>
    simp only [dedupAux]
    by_cases hy : y ∈ seen
    · simp [hy]; exact ih seen
    · simp only [hy, if_false]
      refine List.nodup_cons.mpr ⟨?_, ih (y :: seen)⟩
      intro hmem
      exact (dedupAux_not_mem_seen (y :: seen) ys y hmem) (List.mem_cons_self _ _)

theorem dedupKeepFirst_nodup {α : Type} [DecidableEq α] (l : List α) :
    (dedupKeepFirst l).Nodup := dedupAux_nodup [] l

theorem mem_dedupKeepFirst {α : Type} [DecidableEq α] (l : List α) (x : α) :
    x ∈ dedupKeepFirst l ↔ x ∈ l := by
  constructor
  · exact fun h => dedupAux_subset [] l x h
  · exact fun h => dedupAux_mem [] l x h (by simp)

theorem isSubstr_iff (p s : List Char) :
    isSubstr p s = true ↔ ∃ a b, s = a ++ p ++ b := by
  induction s with
  | nil =>
    simp only [isSubstr, List.isEmpty_iff]
    constructor
    · rintro rfl; exact ⟨[], [], rfl⟩
    · rintro ⟨a, b, hab⟩
      rcases List.append_eq_nil.mp (List.append_eq_nil.mp hab.symm).1 with ⟨-, h2⟩
      exact h2
  | cons c rest ih =>
    simp only [isSubstr, Bool.or_eq_true]
    constructor
    · rintro (h | h)
      · rcases List.isPrefixOf_iff_prefix.mp h with ⟨b, hb⟩
        exact ⟨[], b, hb.symm⟩
      · rcases ih.mp h with ⟨a, b, hab⟩
        exact ⟨c :: a, b, by simp [hab]⟩
    · rintro ⟨a, b, hab⟩
      cases a with
      | nil =>
        left
        exact List.isPrefixOf_iff_prefix.mpr ⟨b, by simpa using hab.symm⟩
      | cons d a2 =>
        right
        refine ih.mpr ⟨a2, b, ?_⟩
        have := hab
        simp only [List.cons_append] at this
        exact (List.cons_eq_cons.mp this).2

theorem isSubstr_trans {p q s : List Char} (h1 : isSubstr p q = true)
    (h2 : isSubstr q s = true) : isSubstr p s = true := by
  rcases (isSubstr_iff p q).mp h1 with ⟨a, b, rfl⟩
  rcases (isSubstr_iff _ s).mp h2 with ⟨c, d, rfl⟩
  exact (isSubstr_iff p _).mpr ⟨c ++ a, b ++ d, by simp⟩

theorem dedupAux_sublist {α : Type} [DecidableEq α] (seen l : List α) :
    (dedupAux seen l).Sublist l := by
  induction l generalizing seen with
  | nil => simp [dedupAux]
  | cons y ys ih =>
    simp only [dedupAux]
    by_cases hy : y ∈ seen
    · simp only [hy, if_true]
      exact (ih seen).cons y
    · simp only [hy, if_false]
      exact (ih (y :: seen)).cons₂ y

theorem dedupKeepFirst_sublist {α : Type} [DecidableEq α] (l : List α) :
    (dedupKeepFirst l).Sublist l := dedupAux_sublist [] l

theorem mem_of_getLast?_eq_some {α : Type} {l : List α} {c : α}
    (h : l.getLast? = some c) : c ∈ l := by
  have hm : c ∈ l.getLast? := h
  rcases List.mem_getLast?_eq_getLast hm with ⟨hne, rfl⟩
  exact List.getLast_mem hne

theorem find?_split {α : Type} {p : α → Bool} {l : List α} {a : α}
    (h : l.find? p = some a) :
    ∃ l1 l2, l = l1 ++ a :: l2 ∧ ∀ x ∈ l1, p x = false := by
  induction l with
  | nil => simp at h
  | cons y ys ih =>
    by_cases hp : p y = true
    · rw [List.find?_cons_of_pos _ hp] at h
      cases h
      exact ⟨[], ys, rfl, by simp⟩
    · rw [List.find?_cons_of_neg _ (by simpa using hp)] at h
      rcases ih h with ⟨l1, l2, rfl, hfail⟩
      refine ⟨y :: l1, l2, rfl, ?_⟩
      intro x hx
      rcases List.mem_cons.mp hx with rfl | hx2
      · simpa using hp
      · exact hfail x hx2

theorem mem_insertLenDesc {x y : List Char} {l : List (List Char)} :
    y ∈ insertLenDesc x l ↔ y = x ∨ y ∈ l := by
  induction l with
  | nil => simp [insertLenDesc]
  | cons z zs ih =>
    simp only [insertLenDesc]
    by_cases hz : z.length < x.length
    · simp [hz, List.mem_cons]
    · simp only [hz, if_false, List.mem_cons, ih]
      tauto

theorem mem_sortLenDesc_aux {l : List (List Char)} :
    ∀ {acc x}, x ∈ l.foldl (fun acc y => insertLenDesc y acc) acc ↔
      x ∈ acc ∨ x ∈ l := by
  induction l with
  | nil => simp
  | cons z zs ih =>
    intro acc x
    simp only [List.foldl_cons, ih, mem_insertLenDesc, List.mem_cons]
    tauto

theorem mem_sortLenDesc {l : List (List Char)} {x : List Char} :
    x ∈ sortLenDesc l ↔ x ∈ l := by
  simp [sortLenDesc, mem_sortLenDesc_aux]

theorem pairwise_insertLenDesc {x : List Char} {l : List (List Char)}
    (h : l.Pairwise (fun a b => b.length ≤ a.length)) :
    (insertLenDesc x l).Pairwise (fun a b => b.length ≤ a.length) := by
  induction l with
  | nil => simp [insertLenDesc]
  | cons z zs ih =>
    simp only [insertLenDesc]
    rcases List.pairwise_cons.mp h with ⟨hz, hzs⟩
    by_cases hlt : z.length < x.length
    · simp only [hlt, if_true]
      refine List.pairwise_cons.mpr ⟨?_, h⟩
      intro b hb
      rcases List.mem_cons.mp hb with rfl | hb2
      · exact Nat.le_of_lt hlt
      · exact Nat.le_trans (hz b hb2) (Nat.le_of_lt hlt)
    · simp only [hlt, if_false]
      refine List.pairwise_cons.mpr ⟨?_, ih hzs⟩
      intro b hb
      rcases mem_insertLenDesc.mp hb with rfl | hb2
      · exact Nat.le_of_not_lt hlt
      · exact hz b hb2

theorem pairwise_sortLenDesc_aux {l : List (List Char)} :
    ∀ {acc}, acc.Pairwise (fun a b => b.length ≤ a.length) →
      (l.foldl (fun acc y => insertLenDesc y acc) acc).Pairwise
        (fun a b => b.length ≤ a.length) := by
  induction l with
  | nil => intro acc h; simpa
  | cons z zs ih =>
    intro acc h
    exact ih (pairwise_insertLenDesc h)

theorem pairwise_sortLenDesc (l : List (List Char)) :
    (sortLenDesc l).Pairwise (fun a b => b.length ≤ a.length) :=
  pairwise_sortLenDesc_aux List.Pairwise.nil

/-! ## Claim C7 -/

/-- Claim C7: every query matching at least one first-semester or
entry-level pattern (the U0 and U1 markers included) is classified with
type first_semester by detect_planning_query, even when recommendation or
available patterns also match or a level was extracted — the decision tree
tests the first-semester family first and returns at once. -/
theorem claim_C7 (query : String)
    (h : first_semester_patterns.any
      (fun r => rxSearch r (lowStr query.data)) = true) :
    ∃ r : PlanningResult, detect_planning_query query = some r ∧
      r.type = some "first_semester" := by
  unfold detect_planning_query
  simp only [h, if_true]
  exact ⟨_, rfl, rfl⟩

/-- Witness for C7 on a query that matches both a first-semester pattern
and two recommendation patterns. -/
theorem claim_C7_witness :
    (first_semester_patterns.any (fun r =>
      rxSearch r (lowStr "What courses should I take first semester?".data)) = true) ∧
    (recommendation_patterns.any (fun r =>
      rxSearch r (lowStr "What courses should I take first semester?".data)) = true) ∧
    ∃ r : PlanningResult,
      detect_planning_query "What courses should I take first semester?" = some r ∧
      r.type = some "first_semester" :=
  ⟨by decide, by decide, claim_C7 "What courses should I take first semester?" (by decide)⟩

/-! ## Claim C3 -/

/-- Counterexample to claim C3: course-code extraction applies no deny
list; the deny-listed department word TAKE comes straight through
extract_all_course_ids. -/
theorem claim_C3_counterexample :
    "TAKE" ∈ DEPT_FALSE_POSITIVES ∧
    extract_all_course_ids "Can I TAKE 200 level courses" = ["TAKE 200"] :=
  ⟨by decide, by decide⟩

/-- Claim C3 as amended: the deny list acts only in the
has_specific_course gate of hybrid_search — the gate is off exactly when
every regex match has a deny-listed department, in which case planning
detection runs — while extraction itself keeps every match, deny-listed or
not. -/
theorem claim_C3_amended (query : String) :
    (has_specific_course query = false ↔
      ∀ p ∈ courseIdFindAll false (upStr query.data),
        String.mk p.1 ∈ DEPT_FALSE_POSITIVES) ∧
    (∀ p ∈ courseIdFindAll false query.data,
      canonCode p ∈ extract_all_course_ids query) := by
  constructor
  · unfold has_specific_course
    rw [List.any_eq_false]
    constructor
    · intro h p hp
      have := h p hp
      simpa using this
    · intro h p hp
      simpa using h p hp
  · intro p hp
    exact (mem_dedupKeepFirst _ _).mpr (List.mem_map_of_mem canonCode hp)

/-- Witness for C3 as amended: a deny-listed-only query leaves the gate
off, yet its code is extracted. -/
theorem claim_C3_amended_witness :
    has_specific_course "Can I TAKE 200 level courses" = false ∧
    canonCode ("TAKE".data, "200".data) ∈
      extract_all_course_ids "Can I TAKE 200 level courses" :=
  ⟨(claim_C3_amended "Can I TAKE 200 level courses").1.mpr (by decide),
   (claim_C3_amended "Can I TAKE 200 level courses").2
     ("TAKE".data, "200".data) (by decide)⟩

/-! ## Claim C2, counterexample -/

/-- Counterexample to claim C2: with the PrerequisiteEdge relation
populated, get_courses_requiring still ignores it and scans only the
free-text sentences — the edge-based reading of the spec returns COMP 999
while the code returns nothing. -/
theorem claim_C2_counterexample :
    envEdgeOnly.edges ≠ [] ∧
    get_courses_requiring envEdgeOnly "COMP 250" = [] ∧
    get_courses_requiring_claimC2 envEdgeOnly "COMP 250" = ["COMP 999"] :=
  ⟨by decide, by decide, by decide⟩

/-! ## Claim C1, counterexample -/

/-- Counterexample to claim C1: on a what-requires query whose reverse
lookup finds zero rows, hybrid_search returns the empty list from the
structural path instead of the nonempty semantic results. -/
theorem claim_C1_counterexample :
    get_courses_requiring envNoReverse "COMP 250" = [] ∧
    hybrid_search envNoReverse "which courses require comp 250?" none none 50 = [] ∧
    envNoReverse.semantic "which courses require comp 250?" 50 =
      [{ course_id := "COMP 202", score := (3 : Rat) / 10 }] :=
  ⟨by decide, by decide, rfl⟩

/-! ## Claim C4 -/

theorem listCharLt_irrefl (l : List Char) : listCharLt l l = false := by
  induction l with
  | nil => rfl
  | cons c cs ih => simp [listCharLt, ih]

theorem char_eq_of_toNat_eq {a b : Char} (h : a.toNat = b.toNat) : a = b := by
  have hv : a.val = b.val := by
    simp only [Char.toNat] at h
    exact UInt32.toNat.inj h
  exact Char.eq_of_val_eq hv

theorem listCharLt_trans {a b c : List Char} (h1 : listCharLt a b = true)
    (h2 : listCharLt b c = true) : listCharLt a c = true := by
  induction a generalizing b c with
  | nil =>
    cases b with
    | nil => simp [listCharLt] at h1
    | cons y ys =>
      cases c with
      | nil => simp [listCharLt] at h2
      | cons z zs => simp [listCharLt]
  | cons x xs ih =>
    cases b with
    | nil => simp [listCharLt] at h1
    | cons y ys =>
      cases c with
      | nil => simp [listCharLt] at h2
      | cons z zs =>
        simp only [listCharLt] at h1 h2 ⊢
        by_cases hxy : x.toNat < y.toNat
        · by_cases hyz : y.toNat < z.toNat
          · simp [Nat.lt_trans hxy hyz]
          · by_cases heq : y.toNat = z.toNat
            · have : x.toNat < z.toNat := heq ▸ hxy
              simp [this]
            · simp [hyz, heq] at h2
        · by_cases heq : x.toNat = y.toNat
          · rw [if_neg hxy, if_pos heq] at h1
            by_cases hyz : y.toNat < z.toNat
            · have : x.toNat < z.toNat := heq ▸ hyz
              simp [this]
            · by_cases heq2 : y.toNat = z.toNat
              · rw [if_neg hyz, if_pos heq2] at h2
                have hxz : x.toNat = z.toNat := heq.trans heq2
                have hnlt : ¬ x.toNat < z.toNat := by omega
                rw [if_neg hnlt, if_pos hxz]
                exact ih h1 h2
              · simp [hyz, heq2] at h2
          · simp [hxy, heq] at h1

theorem listCharLt_antisymm {a b : List Char} (h1 : listCharLt a b = false)
    (h2 : listCharLt b a = false) : a = b := by
  induction a generalizing b with
  | nil =>
    cases b with
    | nil => rfl
    | cons y ys => simp [listCharLt] at h1
  | cons x xs ih =>
    cases b with
    | nil => simp [listCharLt] at h2
    | cons y ys =>
      simp only [listCharLt] at h1 h2
      by_cases hxy : x.toNat < y.toNat
      · simp [hxy] at h1
      · by_cases hyx : y.toNat < x.toNat
        · simp [hyx] at h2
        · have heq : x.toNat = y.toNat := by omega
          rw [if_neg hxy, if_pos heq] at h1
          rw [if_neg hyx, if_pos heq.symm] at h2
          rw [char_eq_of_toNat_eq heq, ih h1 h2]

theorem strLt_trans {a b c : String} (h1 : strLt a b = true)
    (h2 : strLt b c = true) : strLt a c = true :=
  listCharLt_trans h1 h2

theorem strLt_antisymm {a b : String} (h1 : strLt a b = false)
    (h2 : strLt b a = false) : a = b := by
  have hd : a.data = b.data := listCharLt_antisymm h1 h2
  exact congrArg String.mk hd

theorem strLt_irrefl (a : String) : strLt a a = false :=
  listCharLt_irrefl a.data

theorem minLexAux_mem (l : List String) : ∀ x : String, minLexAux x l ∈ x :: l := by
  induction l with
  | nil => intro x; simp [minLexAux]
  | cons y ys ih =>
    intro x
    simp only [minLexAux]
    by_cases hlt : strLt y x = true
    · rw [if_pos hlt]
      rcases List.mem_cons.mp (ih y) with h | h
      · simp [h]
      · simp [h]
    · rw [if_neg hlt]
      rcases List.mem_cons.mp (ih x) with h | h
      · simp [h]
      · simp [h]

theorem minLexAux_min (l : List String) :
    ∀ x z : String, z ∈ x :: l → strLt z (minLexAux x l) = false := by
  induction l with
  | nil =>
    intro x z hz
    simp only [List.mem_cons, List.not_mem_nil, or_false] at hz
    subst hz
    simp [minLexAux, strLt_irrefl]
  | cons y ys ih =>
    intro x z hz
    simp only [minLexAux]
    by_cases hyx : strLt y x = true
    · rw [if_pos hyx]
      rcases List.mem_cons.mp hz with heq | hz2
      · subst heq
        by_contra hcon
        simp only [Bool.not_eq_false] at hcon
        have hym : strLt y (minLexAux y ys) = false :=
          ih y y (List.mem_cons_self y ys)
        have hcontra : strLt y (minLexAux y ys) = true := strLt_trans hyx hcon
        rw [hym] at hcontra
        exact absurd hcontra (by simp)
      · exact ih y z hz2
    · rw [if_neg hyx]
      rcases List.mem_cons.mp hz with heq | hz2
      · subst heq
        exact ih z z (List.mem_cons_self z ys)
      · rcases List.mem_cons.mp hz2 with heq2 | hz3
        · subst heq2
          by_contra hcon
          simp only [Bool.not_eq_false] at hcon
          have hxm : strLt x (minLexAux x ys) = false :=
            ih x x (List.mem_cons_self x ys)
          by_cases hxz : strLt x z = true
          · have hcontra : strLt x (minLexAux x ys) = true := strLt_trans hxz hcon
            rw [hxm] at hcontra
            exact absurd hcontra (by simp)
          · have hzx : strLt z x = false := by simpa using hyx
            have hxzf : strLt x z = false := by simpa using hxz
            have hx_eq : x = z := strLt_antisymm hxzf hzx
            rw [hx_eq] at hxm hcon
            rw [hxm] at hcon
            exact absurd hcon (by simp)
        · exact ih x z (List.mem_cons_of_mem x hz3)

theorem minLex_mem {ids : List String} (h : ids ≠ []) : minLex ids ∈ ids := by
  cases ids with
  | nil => exact absurd rfl h
  | cons x xs => exact minLexAux_mem xs x

theorem minLex_min {ids : List String} (h : ids ≠ []) :
    ∀ y ∈ ids, strLt y (minLex ids) = false := by
  cases ids with
  | nil => exact absurd rfl h
  | cons x xs => exact fun y hy => minLexAux_min xs x y hy

theorem keys_addToGroups (key : List Char) (id : String)
    (l : List (List Char × List String)) :
    (addToGroups key id l).map Prod.fst =
      if key ∈ l.map Prod.fst then l.map Prod.fst
      else l.map Prod.fst ++ [key] := by
  induction l with
  | nil => simp [addToGroups]
  | cons p rest ih =>
    obtain ⟨k, ids⟩ := p
    by_cases hk : k = key
    · subst hk
      simp [addToGroups]
    · simp only [addToGroups, if_neg hk, List.map_cons]
      rw [ih]
      by_cases hmem : key ∈ rest.map Prod.fst
      · simp [hmem, hk, Ne.symm hk]
      · simp [hmem, hk, Ne.symm hk]

theorem nodup_keys_addToGroups {key : List Char} {id : String}
    {l : List (List Char × List String)}
    (h : (l.map Prod.fst).Nodup) :
    ((addToGroups key id l).map Prod.fst).Nodup := by
  rw [keys_addToGroups]
  by_cases hmem : key ∈ l.map Prod.fst
  · simpa [hmem]
  · simp only [hmem, if_false]
    simp [List.nodup_append, h, hmem]

theorem nodup_keys_titleGroups_aux (rows : List (String × String)) :
    ∀ acc : List (List Char × List String), (acc.map Prod.fst).Nodup →
      ((rows.foldl
        (fun acc r =>
          if r.2.data.isEmpty then acc
          else addToGroups (normalize_title r.2.data) r.1 acc) acc).map
          Prod.fst).Nodup := by
  induction rows with
  | nil => intro acc h; simpa
  | cons r rest ih =>
    intro acc h
    simp only [List.foldl_cons]
    by_cases he : r.2.data.isEmpty = true
    · simp only [he, if_true]
      exact ih acc h
    · simp only [he, Bool.false_eq_true, if_false]
      exact ih _ (nodup_keys_addToGroups h)

theorem nodup_keys_titleGroups (rows : List (String × String)) :
    ((titleGroups rows).map Prod.fst).Nodup :=
  nodup_keys_titleGroups_aux rows [] (by simp)

theorem find?_key_of_mem {β : Type} {l : List (List Char × β)}
    (hnd : (l.map Prod.fst).Nodup) {t : List Char} {g : β}
    (hm : (t, g) ∈ l) :
    l.find? (fun p => p.1 = t) = some (t, g) := by
  induction l with
  | nil => simp at hm
  | cons p rest ih =>
    obtain ⟨k, v⟩ := p
    rw [List.map_cons] at hnd
    rcases List.nodup_cons.mp hnd with ⟨hknotin, hndrest⟩
    by_cases hk : k = t
    · subst hk
      rw [List.find?_cons_of_pos _ (by simp)]
      rcases List.mem_cons.mp hm with heq | htail
      · rw [show ((k, v) : List Char × β) = (k, g) from heq.symm]
      · exfalso
        exact hknotin (List.mem_map.mpr ⟨(k, g), htail, rfl⟩)
    · rw [List.find?_cons_of_neg _ (by simp [hk])]
      rcases List.mem_cons.mp hm with heq | htail
      · exfalso
        apply hk
        have hfst := congrArg Prod.fst heq
        exact hfst.symm
      · exact ih hndrest htail

theorem key_unique {β : Type} {l : List (List Char × β)}
    (hnd : (l.map Prod.fst).Nodup) {t : List Char} {a b : β}
    (ha : (t, a) ∈ l) (hb : (t, b) ∈ l) : a = b := by
  have h1 := find?_key_of_mem hnd ha
  have h2 := find?_key_of_mem hnd hb
  rw [h1] at h2
  exact congrArg Prod.snd (Option.some.inj h2)

theorem lookup_titleToId {groups : List (List Char × List String)}
    (hnd : (groups.map Prod.fst).Nodup) {t : List Char} {g : List String}
    (hm : (t, g) ∈ groups) :
    lookupAssoc (titleToId groups) t = some (titleDefault g) := by
  unfold lookupAssoc titleToId
  rw [List.find?_map]
  have hpred : ((fun p : List Char × String => decide (p.1 = t)) ∘
      (fun g : List Char × List String => (g.1, titleDefault g.2))) =
      (fun p : List Char × List String => decide (p.1 = t)) := rfl
  rw [hpred, find?_key_of_mem hnd hm]
  rfl

theorem lookup_duplicates_of_big {groups : List (List Char × List String)}
    (hnd : (groups.map Prod.fst).Nodup) {t : List Char} {g : List String}
    (hm : (t, g) ∈ groups) (hg : g.length > 1) :
    lookupAssoc (duplicateTitles groups) t = some g := by
  unfold lookupAssoc duplicateTitles
  have hsub : ((groups.filter (fun p => p.2.length > 1)).map Prod.fst).Sublist
      (groups.map Prod.fst) := (List.filter_sublist _).map Prod.fst
  have hnd2 := hnd.sublist hsub
  have hm2 : (t, g) ∈ groups.filter (fun p => p.2.length > 1) :=
    List.mem_filter.mpr ⟨hm, by simpa using hg⟩
  rw [find?_key_of_mem hnd2 hm2]
  rfl

theorem lookup_duplicates_of_single {groups : List (List Char × List String)}
    (hnd : (groups.map Prod.fst).Nodup) {t : List Char} {g : List String}
    (hm : (t, g) ∈ groups) (hg : g.length ≤ 1) :
    lookupAssoc (duplicateTitles groups) t = none := by
  unfold lookupAssoc duplicateTitles
  rw [List.find?_eq_none.mpr]
  · rfl
  · intro p hp hpt
    rcases List.mem_filter.mp hp with ⟨hpg, hlen⟩
    have ht : p.1 = t := by simpa using hpt
    have : p.2 = g := by
      have hpair : (t, p.2) ∈ groups := by
        have : p = (t, p.2) := by
          cases p; simp_all
        rwa [this] at hpg
      exact key_unique hnd hpair hm
    rw [this] at hlen
    simp at hlen
    omega

/-- Claim C4: after the title index is built, a normalized title carried by
exactly one course resolves with null alternatives; one carried by several
courses resolves to a deterministic default — a COMP course when the group
has one, else the lexicographically first id — together with the full group
as alternatives, which has length at least two and contains the default. -/
theorem claim_C4 (rows : List (String × String)) (t : List Char)
    (g : List String) (hm : (t, g) ∈ titleGroups rows) :
    (g.length = 1 → ∃ x, g = [x] ∧ resolveTitle rows t = (some x, none)) ∧
    (g.length ≥ 2 →
      resolveTitle rows t = (some (titleDefault g), some g) ∧
      titleDefault g ∈ g ∧ 2 ≤ g.length ∧
      ((∃ c ∈ g, "COMP ".data.isPrefixOf c.data = true) →
        "COMP ".data.isPrefixOf (titleDefault g).data = true) ∧
      ((∀ c ∈ g, ¬ "COMP ".data.isPrefixOf c.data = true) →
        ∀ y ∈ g, strLt y (titleDefault g) = false)) := by
  have hnd := nodup_keys_titleGroups rows
  constructor
  · intro h1
    obtain ⟨x, rfl⟩ : ∃ x, g = [x] := by
      cases g with
      | nil => simp at h1
      | cons a as =>
        cases as with
        | nil => exact ⟨a, rfl⟩
        | cons b bs => simp at h1
    refine ⟨x, rfl, ?_⟩
    simp only [resolveTitle]
    rw [lookup_titleToId hnd hm, lookup_duplicates_of_single hnd hm (by simp)]
    rfl
  · intro h2
    have hg1 : g.length > 1 := h2
    have hne : g ≠ [] := by
      intro h; subst h; simp at hg1
    constructor
    · simp only [resolveTitle]
      rw [lookup_titleToId hnd hm, lookup_duplicates_of_big hnd hm hg1]
    refine ⟨?_, h2, ?_, ?_⟩
    · cases hf : g.find? (fun c => "COMP ".data.isPrefixOf c.data) with
      | some c =>
        have hdef : titleDefault g = c := by
          unfold titleDefault
          rw [if_pos hg1, hf]
        rw [hdef]
        exact List.mem_of_find?_eq_some hf
      | none =>
        have hdef : titleDefault g = minLex g := by
          unfold titleDefault
          rw [if_pos hg1, hf]
        rw [hdef]
        exact minLex_mem hne
    · rintro ⟨c, hc, hcpre⟩
      cases hf : g.find? (fun c => "COMP ".data.isPrefixOf c.data) with
      | some d =>
        have hdef : titleDefault g = d := by
          unfold titleDefault
          rw [if_pos hg1, hf]
        rw [hdef]
        simpa using List.find?_some hf
      | none =>
        exfalso
        have hfail := List.find?_eq_none.mp hf c hc
        simp only [Bool.not_eq_true] at hfail
        rw [hcpre] at hfail
        exact absurd hfail (by simp)
    · intro hnone
      cases hf : g.find? (fun c => "COMP ".data.isPrefixOf c.data) with
      | some d =>
        exfalso
        have hd := List.find?_some hf
        simp only at hd
        exact hnone d (List.mem_of_find?_eq_some hf) hd
      | none =>
        have hdef : titleDefault g = minLex g := by
          unfold titleDefault
          rw [if_pos hg1, hf]
        rw [hdef]
        exact minLex_min hne

/-- Witness for C4 on a store in which Operating Systems is carried by a
COMP course and an ECSE course. -/
theorem claim_C4_witness :
    resolveTitle
      [("COMP 310", "Operating Systems"), ("ECSE 427", "Operating Systems"),
       ("COMP 250", "Intro to CS")] "operating systems".data =
      (some (titleDefault ["COMP 310", "ECSE 427"]),
       some ["COMP 310", "ECSE 427"]) ∧
    titleDefault ["COMP 310", "ECSE 427"] ∈ ["COMP 310", "ECSE 427"] := by
  have h := (claim_C4
    [("COMP 310", "Operating Systems"), ("ECSE 427", "Operating Systems"),
     ("COMP 250", "Intro to CS")] "operating systems".data
    ["COMP 310", "ECSE 427"] (by decide)).2 (by decide)
  exact ⟨h.1, h.2.1⟩

/-! ## Claim C5, counterexample -/

/-- Counterexample to claim C5: the third strategy also requires the
cleaned query to have at least five characters; the four-character query
calc is contained in the known title calculus 1 and the claim reading
resolves it, but the code returns nothing. -/
theorem claim_C5_counterexample :
    find_course_by_title [("MATH 140", "Calculus 1")] "calc" = (none, none) ∧
    find_course_by_title_claimC5 [("MATH 140", "Calculus 1")] "calc" =
      (some "MATH 140", none) :=
  ⟨by decide, by decide⟩

theorem ne_nil_of_lookupAssoc_some {β : Type} {l : List (List Char × β)}
    {k : List Char} {v : β} (h : lookupAssoc l k = some v) :
    l.isEmpty = false := by
  cases l with
  | nil => simp [lookupAssoc] at h
  | cons p rest => rfl

/-- Claim C5 as amended: find_course_by_title cleans the query and then
tries exactly, in order: exact match on the cleaned query; longest known
title of length at least five contained in the normalized query; cleaned
query of length at least five contained in a known title; the first
strategy to succeed determines the result, and when all fail the result is
empty. -/
theorem claim_C5_amended (rows : List (String × String)) (query : String) :
    (∀ cid : String,
      lookupAssoc (titleToId (titleGroups rows)) (cleanedQuery query) = some cid →
      find_course_by_title rows query =
        (some cid,
         lookupAssoc (duplicateTitles (titleGroups rows)) (cleanedQuery query))) ∧
    (lookupAssoc (titleToId (titleGroups rows)) (cleanedQuery query) = none →
      ∀ t ∈ (titleToId (titleGroups rows)).map Prod.fst,
        t.length ≥ 5 → isSubstr t (queryNormalized query) = true →
      ∃ best ∈ (titleToId (titleGroups rows)).map Prod.fst,
        best.length ≥ 5 ∧ isSubstr best (queryNormalized query) = true ∧
        (∀ u ∈ (titleToId (titleGroups rows)).map Prod.fst,
          u.length ≥ 5 → isSubstr u (queryNormalized query) = true →
          u.length ≤ best.length) ∧
        find_course_by_title rows query =
          (lookupAssoc (titleToId (titleGroups rows)) best,
           lookupAssoc (duplicateTitles (titleGroups rows)) best)) ∧
    (lookupAssoc (titleToId (titleGroups rows)) (cleanedQuery query) = none →
      (∀ t ∈ (titleToId (titleGroups rows)).map Prod.fst,
        ¬(t.length ≥ 5 ∧ isSubstr t (queryNormalized query) = true)) →
      (cleanedQuery query).length ≥ 5 →
      (∃ p ∈ titleToId (titleGroups rows), isSubstr (cleanedQuery query) p.1 = true) →
      ∃ p ∈ titleToId (titleGroups rows),
        isSubstr (cleanedQuery query) p.1 = true ∧
        find_course_by_title rows query =
          (some p.2, lookupAssoc (duplicateTitles (titleGroups rows)) p.1)) ∧
    (lookupAssoc (titleToId (titleGroups rows)) (cleanedQuery query) = none →
      (∀ t ∈ (titleToId (titleGroups rows)).map Prod.fst,
        ¬(t.length ≥ 5 ∧ isSubstr t (queryNormalized query) = true)) →
      ((cleanedQuery query).length < 5 ∨
        ∀ p ∈ titleToId (titleGroups rows), isSubstr (cleanedQuery query) p.1 = false) →
      find_course_by_title rows query = (none, none)) := by
  refine ⟨?_, ?_, ?_, ?_⟩
  · intro cid hex
    simp only [find_course_by_title]
    rw [ne_nil_of_lookupAssoc_some hex]
    simp only [Bool.false_eq_true, if_false, hex]
  · intro hnone t ht hlen hsub
    have hpred : (decide (t.length ≥ 5) && isSubstr t (queryNormalized query)) = true := by
      simp [hlen, hsub]
    have htmem : t ∈ sortLenDesc ((titleToId (titleGroups rows)).map Prod.fst) :=
      mem_sortLenDesc.mpr ht
    cases hf : (sortLenDesc ((titleToId (titleGroups rows)).map Prod.fst)).find?
        (fun t => decide (t.length ≥ 5) && isSubstr t (queryNormalized query)) with
    | none =>
      exfalso
      exact absurd hpred (by simpa using List.find?_eq_none.mp hf t htmem)
    | some best =>
      have hbestmem : best ∈ (titleToId (titleGroups rows)).map Prod.fst :=
        mem_sortLenDesc.mp (List.mem_of_find?_eq_some hf)
      have hbestpred := List.find?_some hf
      simp only [Bool.and_eq_true, decide_eq_true_eq] at hbestpred
      refine ⟨best, hbestmem, hbestpred.1, hbestpred.2, ?_, ?_⟩
      · intro u hu hulen husub
        rcases find?_split hf with ⟨l1, l2, hsplit, hfail⟩
        have humem : u ∈ sortLenDesc ((titleToId (titleGroups rows)).map Prod.fst) :=
          mem_sortLenDesc.mpr hu
        rw [hsplit] at humem
        rcases List.mem_append.mp humem with hu1 | hu2
        · exfalso
          have := hfail u hu1
          simp [hulen, husub] at this
        · rcases List.mem_cons.mp hu2 with rfl | hu3
          · exact Nat.le_refl _
          · have hpw := pairwise_sortLenDesc ((titleToId (titleGroups rows)).map Prod.fst)
            rw [hsplit] at hpw
            have hsubl : (best :: l2).Sublist (l1 ++ best :: l2) :=
              List.sublist_append_right l1 (best :: l2)
            have hpw2 := hpw.sublist hsubl
            exact (List.pairwise_cons.mp hpw2).1 u hu3
      · simp only [find_course_by_title]
        have hne : (titleToId (titleGroups rows)).isEmpty = false := by
          cases hcase : titleToId (titleGroups rows) with
          | nil => rw [hcase] at ht; simp at ht
          | cons p rest => rfl
        rw [hne]
        simp only [Bool.false_eq_true, if_false, hnone, hf]
  · intro hnone hno2 hlen hex
    have hf2 : (sortLenDesc ((titleToId (titleGroups rows)).map Prod.fst)).find?
        (fun t => decide (t.length ≥ 5) && isSubstr t (queryNormalized query)) = none := by
      rw [List.find?_eq_none]
      intro t ht
      have := hno2 t (mem_sortLenDesc.mp ht)
      simpa using this
    rcases hex with ⟨p0, hp0, hp0sub⟩
    cases hf3 : (titleToId (titleGroups rows)).find?
        (fun p => isSubstr (cleanedQuery query) p.1) with
    | none =>
      exfalso
      exact absurd hp0sub (by simpa using List.find?_eq_none.mp hf3 p0 hp0)
    | some p =>
      have hps : isSubstr (cleanedQuery query) p.1 = true := by
        have h0 := List.find?_some hf3
        exact h0
      refine ⟨p, List.mem_of_find?_eq_some hf3, hps, ?_⟩
      simp only [find_course_by_title]
      have hne : (titleToId (titleGroups rows)).isEmpty = false := by
        cases hcase : titleToId (titleGroups rows) with
        | nil => rw [hcase] at hp0; simp at hp0
        | cons q rest => rfl
      rw [hne]
      simp only [Bool.false_eq_true, if_false, hnone, hf2, hlen, if_pos, hf3]
  · intro hnone hno2 hlast
    cases hemp : (titleToId (titleGroups rows)).isEmpty with
    | true =>
      simp only [find_course_by_title]
      rw [hemp]
      simp
    | false =>
      have hf2 : (sortLenDesc ((titleToId (titleGroups rows)).map Prod.fst)).find?
          (fun t => decide (t.length ≥ 5) && isSubstr t (queryNormalized query)) = none := by
        rw [List.find?_eq_none]
        intro t ht
        have := hno2 t (mem_sortLenDesc.mp ht)
        simpa using this
      simp only [find_course_by_title]
      rw [hemp]
      simp only [Bool.false_eq_true, if_false, hnone, hf2]
      rcases hlast with hshort | hallfail
      · rw [if_neg (by omega)]
      · by_cases hlen : (cleanedQuery query).length ≥ 5
        · rw [if_pos hlen]
          have hf3 : (titleToId (titleGroups rows)).find?
              (fun p => isSubstr (cleanedQuery query) p.1) = none := by
            rw [List.find?_eq_none]
            intro p hp
            simp [hallfail p hp]
          rw [hf3]
        · rw [if_neg hlen]

/-- Witness for C5 as amended: the longest-title strategy resolves a query
that embeds a known title. -/
theorem claim_C5_amended_witness :
    ∃ best ∈ (titleToId (titleGroups
        [("COMP 310", "Operating Systems")])).map Prod.fst,
      best.length ≥ 5 ∧
      isSubstr best (queryNormalized "i love operating systems deeply") = true ∧
      (∀ u ∈ (titleToId (titleGroups
          [("COMP 310", "Operating Systems")])).map Prod.fst,
        u.length ≥ 5 →
        isSubstr u (queryNormalized "i love operating systems deeply") = true →
        u.length ≤ best.length) ∧
      find_course_by_title [("COMP 310", "Operating Systems")]
          "i love operating systems deeply" =
        (lookupAssoc (titleToId (titleGroups
          [("COMP 310", "Operating Systems")])) best,
         lookupAssoc (duplicateTitles (titleGroups
          [("COMP 310", "Operating Systems")])) best) :=
  (claim_C5_amended [("COMP 310", "Operating Systems")]
      "i love operating systems deeply").2.1 (by decide)
    "operating systems".data (by decide) (by decide) (by decide)

/-! ## Claim C8, counterexample -/

/-- Counterexample to claim C8: the query discrete linear algebra contains
the alias linear algebra word-bounded, yet the final result MATH 240 133
does not contain MATH 133 — the later discrete math pass rewrote the
inserted code. -/
theorem claim_C8_counterexample :
    ("linear algebra", "MATH 133") ∈ COURSE_ALIASES ∧
    wbSearchCI "linear algebra".data "discrete linear algebra".data = true ∧
    replace_aliases "discrete linear algebra" = "MATH 240 133" ∧
    isSubstr "MATH 133".data (replace_aliases "discrete linear algebra").data = false :=
  ⟨by decide, by decide, by decide, by decide⟩

/-! ## Claim C8, amended -/

theorem matchLitCI_complete :
    ∀ (pat mid rest : List Char), lowStr mid = lowStr pat →
      matchLitCI pat (mid ++ rest) = some rest := by
  intro pat
  induction pat with
  | nil =>
    intro mid rest h
    have hmid : mid = [] := by
      have := congrArg List.length h
      simpa [lowStr] using this
    subst hmid
    rfl
  | cons p ps ih =>
    intro mid rest h
    cases mid with
    | nil => simp [lowStr] at h
    | cons c cs =>
      simp only [lowStr, List.map_cons, List.cons.injEq] at h
      simpa [matchLitCI, h.1] using ih cs rest (by simpa [lowStr] using h.2)

theorem subWBAux_contains (pat rep : List Char) :
    ∀ (fuel : Nat) (prevW : Bool) (pre mid post : List Char),
      (pre ++ mid ++ post).length < fuel →
      (pre = [] → prevW = false) →
      (∀ c0, pre.getLast? = some c0 → isWordChar c0 = false) →
      lowStr mid = lowStr pat →
      mid ≠ [] →
      closesWordB post = true →
      ∃ u v, subWBAux pat rep fuel prevW (pre ++ mid ++ post) = u ++ rep ++ v := by
  intro fuel
  induction fuel with
  | zero =>
    intro prevW pre mid post hlen
    omega
  | succ f ih =>
    intro prevW pre mid post hlen hpw hlast hmid hmidne hpost
    cases pre with
    | nil =>
      have hpw0 : prevW = false := hpw rfl
      subst hpw0
      cases mid with
      | nil => exact absurd rfl hmidne
      | cons m ms =>
        have hmatch : matchLitCI pat (m :: (ms ++ post)) = some post := by
          have h0 := matchLitCI_complete pat (m :: ms) post hmid
          rwa [List.cons_append] at h0
        refine ⟨[], subWBAux pat rep f
          (match pat.getLast? with
           | some d => isWordChar d
           | none => false) post, ?_⟩
        simp only [List.nil_append, List.cons_append]
        simp only [subWBAux, hmatch, hpost, if_true, Bool.not_false]
    | cons c pre2 =>
      have hcond2 : pre2 = [] → isWordChar c = false := by
        intro h2
        subst h2
        exact hlast c rfl
      have hlast2 : ∀ c0, pre2.getLast? = some c0 → isWordChar c0 = false := by
        intro c0 hc0
        apply hlast
        cases pre2 with
        | nil => simp at hc0
        | cons d ds =>
          rw [show (c :: d :: ds) = [c] ++ (d :: ds) from rfl,
            List.getLast?_append_of_ne_nil [c] (by simp)]
          exact hc0
      have hlen2 : (pre2 ++ mid ++ post).length < f := by
        simp only [List.cons_append, List.length_cons] at hlen
        simpa using Nat.lt_of_succ_lt_succ hlen
      rcases ih (isWordChar c) pre2 mid post hlen2 hcond2 hlast2 hmid hmidne hpost
        with ⟨u, v, hv⟩
      simp only [List.cons_append, subWBAux]
      by_cases hpwc : prevW = true
      · subst hpwc
        simp only [Bool.not_true, Bool.false_eq_true, if_false]
        exact ⟨c :: u, v, by rw [hv]; simp⟩
      · have hpwf : prevW = false := by
          cases prevW
          · rfl
          · exact absurd rfl hpwc
        subst hpwf
        simp only [Bool.not_false, if_true]
        cases hmc : matchLitCI pat (c :: (pre2 ++ mid ++ post)) with
        | some rest2 =>
          simp only []
          by_cases hcb : closesWordB rest2 = true
          · rw [if_pos hcb]
            exact ⟨[], subWBAux pat rep f
              (match pat.getLast? with
               | some d => isWordChar d
               | none => false) rest2, by simp⟩
          · rw [if_neg hcb]
            exact ⟨c :: u, v, by rw [hv]; simp⟩
        | none =>
          simp only []
          exact ⟨c :: u, v, by rw [hv]; simp⟩

/-- Claim C8 as amended: aliases are processed in nonincreasing key length
(stable on table order), and the substitution pass of an alias A mapped to
code C rewrites any query containing A word-bounded, in any letter case,
into a string containing C verbatim; a later pass may still rewrite the
inserted code, as the counterexample records. -/
theorem claim_C8_amended :
    ((sortLenDesc (COURSE_ALIASES.map (fun p => p.1.data))).Pairwise
      (fun a b => b.length ≤ a.length)) ∧
    (∀ (al code : String), (al, code) ∈ COURSE_ALIASES →
      ∀ (pre mid post : List Char),
        lowStr mid = lowStr al.data →
        al.data ≠ [] →
        (∀ c0, pre.getLast? = some c0 → isWordChar c0 = false) →
        closesWordB post = true →
        isSubstr code.data (subWB al.data code.data (pre ++ mid ++ post)) = true) := by
  constructor
  · exact pairwise_sortLenDesc _
  · intro al code _ pre mid post hmid halne hlast hpost
    have hmidne : mid ≠ [] := by
      intro h
      subst h
      have := congrArg List.length hmid
      simp [lowStr] at this
      exact halne (List.eq_nil_of_length_eq_zero this.symm)
    have hlen : (pre ++ mid ++ post).length < (pre ++ mid ++ post).length + 1 :=
      Nat.lt_succ_self _
    rcases subWBAux_contains al.data code.data ((pre ++ mid ++ post).length + 1)
      false pre mid post hlen (fun _ => rfl) hlast hmid hmidne hpost with ⟨u, v, hv⟩
    unfold subWB
    rw [hv]
    exact isSubstr_of_append _ _ _

/-- Witness for C8 as amended: one pass of the calculus 2 alias on a query
containing it in mixed case. -/
theorem claim_C8_amended_witness :
    isSubstr "MATH 141".data
      (subWB "calculus 2".data "MATH 141".data
        ("i failed ".data ++ "Calculus 2".data ++ " twice".data)) = true :=
  (claim_C8_amended).2 "calculus 2" "MATH 141" (by decide)
    "i failed ".data "Calculus 2".data " twice".data
    (by decide) (by decide) (by decide) (by decide)

/-! ## Claim C2, amended -/

theorem flexMatchAt_append (ps qs : List Char) :
    ∀ (seg s2 : List Char), upStr seg = upStr ps → (∀ p ∈ ps, p ≠ ' ') →
      flexMatchAt (ps ++ qs) (seg ++ s2) = flexMatchAt qs s2 := by
  induction ps with
  | nil =>
    intro seg s2 h _
    have hseg : seg = [] := by
      have := congrArg List.length h
      simpa [upStr] using this
    subst hseg
    rfl
  | cons p ps ih =>
    intro seg s2 h hps
    cases seg with
    | nil => simp [upStr] at h
    | cons c cs =>
      simp only [upStr, List.map_cons, List.cons.injEq] at h
      have hp : p ≠ ' ' := hps p (List.mem_cons_self p ps)
      have hps2 : ∀ q ∈ ps, q ≠ ' ' := fun q hq => hps q (List.mem_cons_of_mem p hq)
      simp only [List.cons_append, flexMatchAt]
      rw [if_neg hp]
      rw [if_pos h.1]
      exact ih cs s2 (by simpa [upStr] using h.2) hps2

theorem flexMatchAt_code (dpat npat : List Char)
    (hd : ∀ p ∈ dpat, p ≠ ' ') (hn : ∀ p ∈ npat, p ≠ ' ') :
    ∀ (dvar sep nvar rest : List Char),
      upStr dvar = upStr dpat → upStr nvar = upStr npat →
      (sep = [] ∨ sep = ['-'] ∨ sep = [' ']) →
      (∃ n0 ns0, nvar = n0 :: ns0 ∧ n0 ≠ '-' ∧ n0 ≠ ' ') →
      flexMatchAt (dpat ++ ' ' :: npat) (dvar ++ (sep ++ (nvar ++ rest))) =
        some rest := by
  intro dvar sep nvar rest hdv hnv hsep hn0
  rw [flexMatchAt_append dpat (' ' :: npat) dvar (sep ++ (nvar ++ rest)) hdv hd]
  have hnum : flexMatchAt npat (nvar ++ rest) = some rest := by
    have h0 := flexMatchAt_append npat [] nvar rest hnv hn
    rw [List.append_nil] at h0
    exact h0
  rcases hn0 with ⟨n0, ns0, hnvar, hn0d, hn0s⟩
  rcases hsep with rfl | rfl | rfl
  · subst hnvar
    simp only [List.nil_append, List.cons_append, flexMatchAt]
    rw [if_pos trivial]
    rw [if_neg (by simp [hn0d, hn0s])]
    rw [List.cons_append] at hnum
    exact hnum
  · simp only [List.cons_append, List.nil_append, flexMatchAt]
    rw [if_pos trivial]
    rw [if_pos (by decide)]
    rw [hnum]
    rfl
  · simp only [List.cons_append, List.nil_append, flexMatchAt]
    rw [if_pos trivial]
    rw [if_pos (by decide)]
    rw [hnum]
    rfl

theorem flexSearchAux_complete (pat : List Char) :
    ∀ (fuel : Nat) (prevW : Bool) (pre rest tail : List Char),
      (pre ++ rest).length < fuel →
      (pre = [] → prevW = false) →
      (∀ c0, pre.getLast? = some c0 → isWordChar c0 = false) →
      flexMatchAt pat rest = some tail →
      closesWordB tail = true →
      flexSearchAux pat fuel prevW (pre ++ rest) = true := by
  intro fuel
  induction fuel with
  | zero => intro prevW pre rest tail hlen; omega
  | succ f ih =>
    intro prevW pre rest tail hlen hpw hlast hm hcb
    cases pre with
    | nil =>
      have hpw0 : prevW = false := hpw rfl
      subst hpw0
      simp only [List.nil_append, flexSearchAux, Bool.not_false, Bool.true_and, hm]
      cases tail with
      | nil => simp
      | cons c cs =>
        simp only [closesWordB] at hcb
        simp [hcb]
    | cons c pre2 =>
      have hcond2 : pre2 = [] → isWordChar c = false := by
        intro h2
        subst h2
        exact hlast c rfl
      have hlast2 : ∀ c0, pre2.getLast? = some c0 → isWordChar c0 = false := by
        intro c0 hc0
        apply hlast
        cases pre2 with
        | nil => simp at hc0
        | cons d ds =>
          rw [show (c :: d :: ds) = [c] ++ (d :: ds) from rfl,
            List.getLast?_append_of_ne_nil [c] (by simp)]
          exact hc0
      have hlen2 : (pre2 ++ rest).length < f := by
        simp only [List.cons_append, List.length_cons] at hlen
        omega
      have hrec := ih (isWordChar c) pre2 rest tail hlen2 hcond2 hlast2 hm hcb
      simp only [List.cons_append, flexSearchAux]
      rw [hrec]
      simp

/-- Claim C2 as amended: the reverse-prerequisite lookup never consults the
PrerequisiteEdge relation — its result does not depend on the edges at all —
and always regex-scans every free-text prerequisite sentence, accepting the
joined, hyphenated and spaced spelling variants of the course code in any
letter case; within hybrid_search, the reverse branch returns every match
enriched with its full record at score 0. -/
theorem claim_C2_amended :
    (∀ (courses : List CourseRow) (edges1 edges2 : List PrereqEdgeRow)
       (sem : String → Nat → List SemanticHit) (cid : String),
       get_courses_requiring ⟨courses, edges1, sem⟩ cid =
       get_courses_requiring ⟨courses, edges2, sem⟩ cid) ∧
    (∀ (env : Env) (c : CourseRow), c ∈ env.courses →
      ∀ (t : String), c.prereq_text = some t →
      ∀ (dept num dvar sep nvar pre post : List Char),
        (∀ p ∈ dept, p ≠ '-') → (∀ p ∈ dept, upChar p ≠ ' ') →
        (∀ p ∈ num, p ≠ '-') → (∀ p ∈ num, upChar p ≠ ' ') →
        upStr dvar = upStr (upStr dept) → upStr nvar = upStr (upStr num) →
        (sep = [] ∨ sep = ['-'] ∨ sep = [' ']) →
        (∃ n0 ns0, nvar = n0 :: ns0 ∧ n0 ≠ '-' ∧ n0 ≠ ' ') →
        t.data = pre ++ (dvar ++ (sep ++ (nvar ++ post))) →
        (∀ c0, pre.getLast? = some c0 → isWordChar c0 = false) →
        closesWordB post = true →
        c.id ∈ get_courses_requiring env (String.mk (dept ++ ' ' :: num))) ∧
    (∀ (env : Env) (query : String) (n : Nat) (cid : String),
      has_specific_course query = true →
      extract_course_id (env.courses.map (fun c => (c.id, c.title))) query =
        (some cid, none) →
      isSubstr "for".data (lowStr query.data) = false →
      whatRequiresPhrases.any (fun p => isSubstr p.data (lowStr query.data)) = true →
      get_courses_requiring env cid ≠ [] →
      hybrid_search env query none none n =
        (enrich_context env (get_courses_requiring env cid)).map
          (fun e => { course_id := e.id, score := 0, info := some e })) := by
  refine ⟨?_, ?_, ?_⟩
  · intro courses edges1 edges2 sem cid
    rfl
  · intro env c hc t ht dept num dvar sep nvar pre post hd1 hd2 hn1 hn2 hdv hnv
      hsep hn0 hsplit hlast hcb
    have hnvne : nvar ≠ [] := by
      rcases hn0 with ⟨n0, ns0, rfl, -, -⟩
      simp
    have htne : t.data ≠ [] := by
      rw [hsplit]
      intro hnil
      rcases List.append_eq_nil.mp hnil with ⟨-, h2⟩
      rcases List.append_eq_nil.mp h2 with ⟨-, h3⟩
      rcases List.append_eq_nil.mp h3 with ⟨-, h4⟩
      rcases List.append_eq_nil.mp h4 with ⟨h5, -⟩
      exact hnvne h5
    unfold get_courses_requiring
    have hidne : (String.mk (dept ++ ' ' :: num)).data.isEmpty = false := by
      show (dept ++ ' ' :: num).isEmpty = false
      cases dept <;> rfl
    rw [hidne]
    simp only [Bool.false_eq_true, if_false]
    have hnorm : upStr (((String.mk (dept ++ ' ' :: num)).data).map
        (fun c => if c = '-' then ' ' else c)) = upStr dept ++ ' ' :: upStr num := by
      show upStr ((dept ++ ' ' :: num).map (fun c => if c = '-' then ' ' else c)) = _
      rw [List.map_append, List.map_cons]
      have hdm : dept.map (fun c => if c = '-' then ' ' else c) = dept := by
        rw [List.map_congr_left (g := id) (fun a ha => by simp [hd1 a ha])]
        exact List.map_id dept
      have hnm : num.map (fun c => if c = '-' then ' ' else c) = num := by
        rw [List.map_congr_left (g := id) (fun a ha => by simp [hn1 a ha])]
        exact List.map_id num
      rw [hdm, hnm]
      rw [show (if (' ' : Char) = '-' then ' ' else ' ') = ' ' from rfl]
      simp only [upStr, List.map_append, List.map_cons]
      rw [show upChar ' ' = ' ' from rfl]
    have hsearch : flexSearch (upStr dept ++ ' ' :: upStr num) t.data = true := by
      unfold flexSearch
      rw [hsplit]
      have hmatch := flexMatchAt_code (upStr dept) (upStr num)
        (fun p hp => by
          rcases List.mem_map.mp hp with ⟨q, hq, rfl⟩
          exact hd2 q hq)
        (fun p hp => by
          rcases List.mem_map.mp hp with ⟨q, hq, rfl⟩
          exact hn2 q hq)
        dvar sep nvar post hdv hnv hsep hn0
      exact flexSearchAux_complete (upStr dept ++ ' ' :: upStr num)
        ((pre ++ (dvar ++ (sep ++ (nvar ++ post)))).length + 1) false pre
        (dvar ++ (sep ++ (nvar ++ post))) post (Nat.lt_succ_self _)
        (fun _ => rfl) hlast hmatch hcb
    apply List.mem_filterMap.mpr
    refine ⟨c, hc, ?_⟩
    rw [ht]
    simp only []
    rw [hnorm]
    rw [show t.data.isEmpty = false from List.isEmpty_eq_false.mpr htne, hsearch]
    rfl
  · intro env query n cid hspec hext hfor hreq htargets
    have hall : ∀ p ∈ prereqsForPhrases, isSubstr "for".data p.data = true := by
      decide
    have hfor2 : prereqsForPhrases.any
        (fun p => isSubstr p.data (lowStr query.data)) = false := by
      rw [List.any_eq_false]
      intro p hp hcon
      have hc2 := isSubstr_trans (hall p hp) hcon
      rw [hfor] at hc2
      exact absurd hc2 (by simp)
    simp only [hybrid_search, hspec, if_true]
    simp only [hext, Option.isSome_some, Bool.true_and, hfor2, Bool.and_false,
      Bool.false_eq_true, if_false, hreq, hfor, Bool.not_false, Bool.and_true,
      Bool.true_eq_false]
    rw [if_pos trivial]
    simp only []
    rw [show (get_courses_requiring env cid).isEmpty = false from
      List.isEmpty_eq_false.mpr htargets]
    simp

/-- Witness for C2 as amended: the hyphenated mention COMP-250 inside a
prerequisite sentence is found by the scan for COMP 250. -/
theorem claim_C2_amended_witness :
    "COMP 251" ∈ get_courses_requiring envTextScan
      (String.mk ("COMP".data ++ ' ' :: "250".data)) := by
  have h := (claim_C2_amended).2.1 envTextScan courseAlgo (by decide)
    "Prerequisite: COMP-250." (by decide)
    "COMP".data "250".data "COMP".data ['-'] "250".data
    "Prerequisite: ".data ".".data
    (by decide) (by decide) (by decide) (by decide) (by decide) (by decide)
    (by simp) ⟨'2', "50".data, by decide, by decide, by decide⟩
    (by decide) (by decide) (by decide)
  exact h

/-- Claim C1 as amended: whenever the structural direct course fetch of a
prerequisites-for query produces zero rows, or the planning dispatch
produces zero rows, hybrid_search falls through to semantic search; but
when the reverse-prerequisite lookup produces zero rows, hybrid_search
returns an empty list from the structural path instead of falling
through. -/
theorem claim_C1_amended :
    (∀ (env : Env) (query : String) (n : Nat) (cid : String),
      has_specific_course query = true →
      extract_course_id (env.courses.map (fun c => (c.id, c.title))) query =
        (some cid, none) →
      isSubstr "for".data (lowStr query.data) = false →
      whatRequiresPhrases.any
        (fun p => isSubstr p.data (lowStr query.data)) = true →
      get_courses_requiring env cid = [] →
      hybrid_search env query none none n = []) ∧
    (∀ (env : Env) (query : String) (n : Nat) (cid : String)
       (alt : Option (List String)),
      has_specific_course query = true →
      extract_course_id (env.courses.map (fun c => (c.id, c.title))) query =
        (some cid, alt) →
      prereqsForPhrases.any
        (fun p => isSubstr p.data (lowStr query.data)) = true →
      get_course_directly env cid = none →
      (extract_all_course_ids query).filterMap
        (fun cid2 => (get_course_directly env cid2).map
          (fun c => ({ course_id := c.id, score := 0, info := some c } :
            SearchResult))) = [] →
      hybrid_search env query none none n =
        (env.semantic query n).map
          (fun h => ({ course_id := h.course_id, score := h.score } :
            SearchResult))) ∧
    (∀ (env : Env) (query : String) (n : Nat) (p : PlanningResult),
      has_specific_course query = false →
      detect_planning_query query = some p →
      p.type.isSome = true →
      planningDispatch env p none = none →
      p.department = none →
      extract_course_id (env.courses.map (fun c => (c.id, c.title))) query =
        (none, none) →
      extract_all_course_ids query = [] →
      hybrid_search env query none none n =
        (env.semantic query n).map
          (fun h => ({ course_id := h.course_id, score := h.score } :
            SearchResult))) := by
  refine ⟨?_, ?_, ?_⟩
  · intro env query n cid hspec hext hfor hreq hempty
    have hall : ∀ q ∈ prereqsForPhrases, isSubstr "for".data q.data = true := by
      decide
    have hfor2 : prereqsForPhrases.any
        (fun q => isSubstr q.data (lowStr query.data)) = false := by
      rw [List.any_eq_false]
      intro q hq hcon
      have hc2 := isSubstr_trans (hall q hq) hcon
      rw [hfor] at hc2
      exact absurd hc2 (by simp)
    simp only [hybrid_search, hspec, if_true]
    simp only [hext, Option.isSome_some, Bool.true_and, hfor2, Bool.and_false,
      Bool.false_eq_true, if_false, hreq, hfor, Bool.not_false, Bool.and_true,
      Bool.true_eq_false]
    rw [if_pos trivial]
    simp only []
    rw [hempty]
    simp
  · intro env query n cid alt hspec hext hpf hdir hdr
    have hall : ∀ q ∈ prereqsForPhrases, isSubstr "for".data q.data = true := by
      decide
    have hforT : isSubstr "for".data (lowStr query.data) = true := by
      rcases List.any_eq_true.mp hpf with ⟨q, hq, hsub⟩
      exact isSubstr_trans (hall q hq) (by simpa using hsub)
    simp only [hybrid_search, hspec, if_true]
    simp only [hext, Option.isSome_some, Bool.true_and, hpf, hforT,
      Bool.not_true, Bool.and_false, Bool.false_eq_true, if_false, if_true,
      hdir, hdr, List.isEmpty_nil, Bool.not_true, Bool.and_false]
    simp
  · intro env query n p hspec hdet htype hdisp hdept hext hids
    simp only [hybrid_search, hspec, Bool.false_eq_true, if_false, hdet]
    simp only [htype, if_true, hdisp]
    simp only [hext, Option.isSome_none, Bool.false_and, Bool.false_eq_true,
      if_false, hids, List.isEmpty_nil, Bool.not_true, Bool.false_and,
      Bool.and_false, hdept]

/-- Witness for C1 as amended: in the store with no reverse-prerequisite
rows for COMP 250, the what-requires query returns the empty list even
though the similarity oracle has a hit. -/
theorem claim_C1_amended_witness :
    hybrid_search envNoReverse "which courses require comp 250?" none none 50
      = [] :=
  (claim_C1_amended).1 envNoReverse "which courses require comp 250?" 50
    "COMP 250" (by decide) (by decide) (by decide) (by decide) (by decide)

/-! ## Character-class facts -/

theorem letter_word {c : Char} (h : isAsciiLetter c = true) :
    isWordChar c = true := by
  simp [isWordChar, h]

theorem digit_word {c : Char} (h : isAsciiDigit c = true) :
    isWordChar c = true := by
  simp [isWordChar, h]

theorem notWord_not_letter {c : Char} (h : isWordChar c = false) :
    isAsciiLetter c = false := by
  cases hl : isAsciiLetter c with
  | false => rfl
  | true => rw [letter_word hl] at h; cases h

theorem digit_not_letter (c : Char) (h : isAsciiDigit c = true) :
    isAsciiLetter c = false := by
  simp only [isAsciiDigit, Bool.and_eq_true, decide_eq_true_eq, Char.le_def] at h
  simp only [isAsciiLetter, Bool.or_eq_false_iff, Bool.and_eq_false_iff,
    decide_eq_false_iff_not, Char.le_def]
  have h2 : c.val.toNat ≤ ('9' : Char).val.toNat := h.2
  have h9 : ('9' : Char).val.toNat = 57 := rfl
  constructor
  · left
    show ('A' : Char).val.toNat ≤ c.val.toNat → False
    have hA : ('A' : Char).val.toNat = 65 := rfl
    omega
  · left
    show ('a' : Char).val.toNat ≤ c.val.toNat → False
    have ha : ('a' : Char).val.toNat = 97 := rfl
    omega

theorem digit_not_sep (c : Char) (h : isAsciiDigit c = true) :
    isSepChar c = false := by
  simp only [isAsciiDigit, Bool.and_eq_true, decide_eq_true_eq, Char.le_def] at h
  have h1 : ('0' : Char).val.toNat ≤ c.val.toNat := h.1
  have h0 : ('0' : Char).val.toNat = 48 := rfl
  simp only [isSepChar, isSpaceChar, Bool.or_eq_false_iff, decide_eq_false_iff_not]
  refine ⟨⟨⟨⟨⟨⟨?_, ?_⟩, ?_⟩, ?_⟩, ?_⟩, ?_⟩, ?_⟩ <;>
    · intro hc
      subst hc
      revert h1
      decide

theorem sep_not_word (c : Char) (h : isSepChar c = true) :
    isWordChar c = false := by
  simp only [isSepChar, isSpaceChar, Bool.or_eq_true, decide_eq_true_eq] at h
  rcases h with ((((((h | h) | h) | h) | h) | h) | h) <;> subst h <;> decide

/-! ## Soundness of the course-code matcher: shape of a successful match -/

theorem dropSep_sound {s c s1 : List Char} (h : dropSep false s = (c, s1)) :
    s = c ++ s1 ∧ (c = [] ∨ ∃ sc, c = [sc] ∧ isSepChar sc = true) := by
  cases s with
  | nil =>
    simp only [dropSep, Prod.mk.injEq] at h
    obtain ⟨rfl, rfl⟩ := h
    exact ⟨rfl, Or.inl rfl⟩
  | cons a rest =>
    simp only [dropSep] at h
    by_cases ha : isSepChar a = true
    · rw [if_pos ha] at h
      obtain ⟨rfl, rfl⟩ := Prod.mk.injEq .. |>.mp h
      exact ⟨rfl, Or.inr ⟨a, rfl, ha⟩⟩
    · rw [if_neg ha] at h
      obtain ⟨rfl, rfl⟩ := Prod.mk.injEq .. |>.mp h
      exact ⟨rfl, Or.inl rfl⟩

theorem take3Digits_sound {s ns s2 : List Char}
    (h : take3Digits s = some (ns, s2)) :
    s = ns ++ s2 ∧ ∃ a b c, ns = [a, b, c] ∧ isAsciiDigit a = true ∧
      isAsciiDigit b = true ∧ isAsciiDigit c = true := by
  match s, h with
  | a :: b :: c :: rest, h =>
    simp only [take3Digits] at h
    by_cases hd : (isAsciiDigit a && isAsciiDigit b && isAsciiDigit c) = true
    · rw [if_pos hd] at h
      obtain ⟨rfl, rfl⟩ := Prod.mk.injEq .. |>.mp (Option.some.inj h)
      simp only [Bool.and_eq_true] at hd
      exact ⟨rfl, a, b, c, rfl, hd.1.1, hd.1.2, hd.2⟩
    · rw [if_neg hd] at h
      cases h

theorem codeTail_sound {ns s2 num rest : List Char}
    (h : codeTail ns s2 = some (num, rest)) :
    ∃ tl, num = ns ++ tl ∧ s2 = tl ++ rest ∧
      (tl = [] ∨ ∃ t, tl = [t] ∧ isAsciiLetter t = true) := by
  cases s2 with
  | nil =>
    simp only [codeTail] at h
    obtain ⟨rfl, rfl⟩ := Prod.mk.injEq .. |>.mp (Option.some.inj h)
    exact ⟨[], by simp, rfl, Or.inl rfl⟩
  | cons t rest2 =>
    simp only [codeTail] at h
    by_cases hlt : isAsciiLetter t = true
    · rw [if_pos hlt] at h
      cases rest2 with
      | nil =>
        obtain ⟨rfl, rfl⟩ := Prod.mk.injEq .. |>.mp (Option.some.inj h)
        exact ⟨[t], rfl, rfl, Or.inr ⟨t, rfl, hlt⟩⟩
      | cons u urest =>
        simp only [] at h
        by_cases hwu : isWordChar u = true
        · rw [if_pos hwu] at h
          cases h
        · rw [if_neg hwu] at h
          obtain ⟨rfl, rfl⟩ := Prod.mk.injEq .. |>.mp (Option.some.inj h)
          exact ⟨[t], rfl, rfl, Or.inr ⟨t, rfl, hlt⟩⟩
    · rw [if_neg hlt] at h
      by_cases hwt : isWordChar t = true
      · rw [if_pos hwt] at h
        cases h
      · rw [if_neg hwt] at h
        obtain ⟨rfl, rfl⟩ := Prod.mk.injEq .. |>.mp (Option.some.inj h)
        exact ⟨[], by simp, rfl, Or.inl rfl⟩

theorem afterLetters_sound {ds s dso num rest : List Char}
    (h : afterLetters false ds s = some (dso, num, rest)) :
    dso = ds ∧ ∃ sepC d1 nrest, s = sepC ++ (num ++ rest) ∧
      num = d1 :: nrest ∧ isAsciiDigit d1 = true ∧
      (∀ x ∈ num, isWordChar x = true) ∧
      (sepC = [] ∨ ∃ sc, sepC = [sc] ∧ isWordChar sc = false) := by
  unfold afterLetters at h
  rcases hds : dropSep false s with ⟨c0, s1⟩
  rw [hds] at h
  simp only [] at h
  cases hts : take3Digits s1 with
  | none => rw [hts] at h; cases h
  | some p =>
    rcases p with ⟨ns3, s2⟩
    rw [hts] at h
    simp only [] at h
    cases hct : codeTail ns3 s2 with
    | none => rw [hct] at h; cases h
    | some q =>
      rcases q with ⟨num2, rest2⟩
      rw [hct] at h
      simp only [Option.some.injEq, Prod.mk.injEq] at h
      obtain ⟨rfl, rfl, rfl⟩ := h
      obtain ⟨hs_eq, hsep⟩ := dropSep_sound hds
      obtain ⟨hs1_eq, a, b, c, rfl, hda, hdb, hdc⟩ := take3Digits_sound hts
      obtain ⟨tl, rfl, hs2_eq, htl⟩ := codeTail_sound hct
      refine ⟨rfl, c0, a, [b, c] ++ tl, ?_, rfl, hda, ?_, ?_⟩
      · rw [hs_eq, hs1_eq, hs2_eq]
        simp [List.append_assoc]
      · intro x hx
        rcases htl with rfl | ⟨t, rfl, hlt⟩
        · simp only [List.append_nil, List.mem_cons, List.not_mem_nil,
            or_false] at hx
          rcases hx with rfl | rfl | rfl
          · exact digit_word hda
          · exact digit_word hdb
          · exact digit_word hdc
        · simp only [List.cons_append, List.nil_append, List.mem_cons,
            List.not_mem_nil, or_false] at hx
          rcases hx with rfl | rfl | rfl | rfl
          · exact digit_word hda
          · exact digit_word hdb
          · exact digit_word hdc
          · exact letter_word hlt
      · rcases hsep with rfl | ⟨sc, rfl, hsc⟩
        · exact Or.inl rfl
        · exact Or.inr ⟨sc, rfl, sep_not_word sc hsc⟩

theorem tryMatchCode_sound {prevW : Bool} {s ds ns rest : List Char}
    (h : tryMatchCode false prevW s = some (ds, ns, rest)) :
    ds ≠ [] ∧ (∀ x ∈ ds, isAsciiLetter x = true) ∧
    (∃ d1 nrest, ns = d1 :: nrest ∧ isAsciiDigit d1 = true) ∧
    (∀ x ∈ ns, isWordChar x = true) ∧
    ∃ sepC, s = ds ++ (sepC ++ (ns ++ rest)) ∧
      (sepC = [] ∨ ∃ sc, sepC = [sc] ∧ isWordChar sc = false) := by
  unfold tryMatchCode at h
  by_cases hw : prevW = true
  · rw [if_pos hw] at h; cases h
  · rw [if_neg hw] at h
    match s, h with
    | l1 :: l2 :: l3 :: rest1, h =>
      simp only [] at h
      by_cases h3 : (isAsciiLetter l1 && isAsciiLetter l2 && isAsciiLetter l3) = true
      · rw [if_pos h3] at h
        simp only [Bool.and_eq_true] at h3
        match rest1, h with
        | [], h =>
          simp only [] at h
          obtain ⟨hd, sepC, d1, nrest, hseq, hnum, hd1, hword, hsep⟩ :=
            afterLetters_sound h
          subst hd
          refine ⟨by simp, ?_, ⟨d1, nrest, hnum, hd1⟩, hword, sepC, ?_, hsep⟩
          · intro x hx
            simp only [List.mem_cons, List.not_mem_nil, or_false] at hx
            rcases hx with rfl | rfl | rfl
            · exact h3.1.1
            · exact h3.1.2
            · exact h3.2
          · rw [show ([l1, l2, l3] : List Char) ++ (sepC ++ (ns ++ rest)) =
                l1 :: l2 :: l3 :: (sepC ++ (ns ++ rest)) from rfl, ← hseq]
        | l4 :: rest4, h =>
          simp only [] at h
          by_cases h4 : isAsciiLetter l4 = true
          · rw [if_pos h4] at h
            cases ha4 : afterLetters false [l1, l2, l3, l4] rest4 with
            | some r4 =>
              rw [ha4] at h
              simp only [Option.orElse, Option.some.injEq] at h
              subst h
              obtain ⟨hd, sepC, d1, nrest, hseq, hnum, hd1, hword, hsep⟩ :=
                afterLetters_sound ha4
              subst hd
              refine ⟨by simp, ?_, ⟨d1, nrest, hnum, hd1⟩, hword, sepC, ?_, hsep⟩
              · intro x hx
                simp only [List.mem_cons, List.not_mem_nil, or_false] at hx
                rcases hx with rfl | rfl | rfl | rfl
                · exact h3.1.1
                · exact h3.1.2
                · exact h3.2
                · exact h4
              · rw [show ([l1, l2, l3, l4] : List Char) ++ (sepC ++ (ns ++ rest)) =
                    l1 :: l2 :: l3 :: l4 :: (sepC ++ (ns ++ rest)) from rfl, ← hseq]
            | none =>
              rw [ha4] at h
              simp only [Option.orElse] at h
              obtain ⟨hd, sepC, d1, nrest, hseq, hnum, hd1, hword, hsep⟩ :=
                afterLetters_sound h
              subst hd
              refine ⟨by simp, ?_, ⟨d1, nrest, hnum, hd1⟩, hword, sepC, ?_, hsep⟩
              · intro x hx
                simp only [List.mem_cons, List.not_mem_nil, or_false] at hx
                rcases hx with rfl | rfl | rfl
                · exact h3.1.1
                · exact h3.1.2
                · exact h3.2
              · rw [show ([l1, l2, l3] : List Char) ++ (sepC ++ (ns ++ rest)) =
                    l1 :: l2 :: l3 :: (sepC ++ (ns ++ rest)) from rfl, ← hseq]
          · rw [if_neg h4] at h
            obtain ⟨hd, sepC, d1, nrest, hseq, hnum, hd1, hword, hsep⟩ :=
              afterLetters_sound h
            subst hd
            refine ⟨by simp, ?_, ⟨d1, nrest, hnum, hd1⟩, hword, sepC, ?_, hsep⟩
            · intro x hx
              simp only [List.mem_cons, List.not_mem_nil, or_false] at hx
              rcases hx with rfl | rfl | rfl
              · exact h3.1.1
              · exact h3.1.2
              · exact h3.2
            · rw [show ([l1, l2, l3] : List Char) ++ (sepC ++ (ns ++ rest)) =
                  l1 :: l2 :: l3 :: (sepC ++ (ns ++ rest)) from rfl, ← hseq]
      · rw [if_neg h3] at h
        cases h

/-! ## Completeness of the course-code matcher -/

theorem codeTail_complete (d1 d2 d3 : Char) (tl post : List Char)
    (htl : tl = [] ∨ ∃ t, tl = [t] ∧ isAsciiLetter t = true)
    (hpost : post = [] ∨ ∃ u us, post = u :: us ∧ isWordChar u = false) :
    codeTail [d1, d2, d3] (tl ++ post) = some ([d1, d2, d3] ++ tl, post) := by
  rcases htl with rfl | ⟨t, rfl, hlt⟩
  · rcases hpost with rfl | ⟨u, us, rfl, hwu⟩
    · rfl
    · show codeTail [d1, d2, d3] (u :: us) = some ([d1, d2, d3], u :: us)
      simp only [codeTail, notWord_not_letter hwu, Bool.false_eq_true,
        if_false, hwu]
  · rcases hpost with rfl | ⟨u, us, rfl, hwu⟩
    · show codeTail [d1, d2, d3] (t :: []) = some ([d1, d2, d3] ++ [t], [])
      simp only [codeTail, hlt, if_true]
    · show codeTail [d1, d2, d3] (t :: u :: us) =
        some ([d1, d2, d3] ++ [t], u :: us)
      simp only [codeTail, hlt, if_true, hwu, Bool.false_eq_true, if_false]

theorem afterLetters_complete (ds sep : List Char) (d1 d2 d3 : Char)
    (tl post : List Char)
    (hsep : sep = [] ∨ sep = ['-'] ∨ sep = [' '])
    (hd1 : isAsciiDigit d1 = true) (hd2 : isAsciiDigit d2 = true)
    (hd3 : isAsciiDigit d3 = true)
    (htl : tl = [] ∨ ∃ t, tl = [t] ∧ isAsciiLetter t = true)
    (hpost : post = [] ∨ ∃ u us, post = u :: us ∧ isWordChar u = false) :
    afterLetters false ds (sep ++ (([d1, d2, d3] ++ tl) ++ post)) =
      some (ds, [d1, d2, d3] ++ tl, post) := by
  have hct := codeTail_complete d1 d2 d3 tl post htl hpost
  rcases hsep with rfl | rfl | rfl
  · show afterLetters false ds (d1 :: d2 :: d3 :: (tl ++ post)) = _
    simp only [afterLetters, dropSep, digit_not_sep d1 hd1,
      Bool.false_eq_true, if_false, take3Digits, hd1, hd2, hd3,
      Bool.and_self, if_true, hct]
  · show afterLetters false ds ('-' :: d1 :: d2 :: d3 :: (tl ++ post)) = _
    simp only [afterLetters, dropSep, show isSepChar '-' = true from rfl,
      if_true, Bool.false_eq_true, if_false, take3Digits, hd1, hd2, hd3,
      Bool.and_self, hct]
  · show afterLetters false ds (' ' :: d1 :: d2 :: d3 :: (tl ++ post)) = _
    simp only [afterLetters, dropSep, show isSepChar ' ' = true from rfl,
      if_true, Bool.false_eq_true, if_false, take3Digits, hd1, hd2, hd3,
      Bool.and_self, hct]

theorem tryMatchCode_complete (l1 l2 l3 : Char) (d4 sep : List Char)
    (d1 d2 d3 : Char) (tl post : List Char)
    (h1 : isAsciiLetter l1 = true) (h2 : isAsciiLetter l2 = true)
    (h3 : isAsciiLetter l3 = true)
    (hd4 : d4 = [] ∨ ∃ l4, d4 = [l4] ∧ isAsciiLetter l4 = true)
    (hsep : sep = [] ∨ sep = ['-'] ∨ sep = [' '])
    (hd1 : isAsciiDigit d1 = true) (hd2 : isAsciiDigit d2 = true)
    (hd3 : isAsciiDigit d3 = true)
    (htl : tl = [] ∨ ∃ t, tl = [t] ∧ isAsciiLetter t = true)
    (hpost : post = [] ∨ ∃ u us, post = u :: us ∧ isWordChar u = false) :
    tryMatchCode false false
      ((l1 :: l2 :: l3 :: d4) ++ (sep ++ (([d1, d2, d3] ++ tl) ++ post))) =
      some (l1 :: l2 :: l3 :: d4, [d1, d2, d3] ++ tl, post) := by
  rcases hd4 with rfl | ⟨l4, rfl, h4⟩
  · rcases hsep with rfl | rfl | rfl
    · have hal : afterLetters false [l1, l2, l3]
          (d1 :: d2 :: d3 :: (tl ++ post)) =
          some ([l1, l2, l3], [d1, d2, d3] ++ tl, post) :=
        afterLetters_complete [l1, l2, l3] [] d1 d2 d3 tl post
          (Or.inl rfl) hd1 hd2 hd3 htl hpost
      show tryMatchCode false false
          (l1 :: l2 :: l3 :: d1 :: d2 :: d3 :: (tl ++ post)) = _
      simp only [tryMatchCode, Bool.false_eq_true, if_false, h1, h2, h3,
        Bool.and_self, if_true, digit_not_letter d1 hd1, hal]
    · have hal : afterLetters false [l1, l2, l3]
          ('-' :: (([d1, d2, d3] ++ tl) ++ post)) =
          some ([l1, l2, l3], [d1, d2, d3] ++ tl, post) :=
        afterLetters_complete [l1, l2, l3] ['-'] d1 d2 d3 tl post
          (Or.inr (Or.inl rfl)) hd1 hd2 hd3 htl hpost
      show tryMatchCode false false
          (l1 :: l2 :: l3 :: '-' :: (([d1, d2, d3] ++ tl) ++ post)) = _
      simp only [tryMatchCode, Bool.false_eq_true, if_false, h1, h2, h3,
        Bool.and_self, if_true, show isAsciiLetter '-' = false from rfl, hal]
    · have hal : afterLetters false [l1, l2, l3]
          (' ' :: (([d1, d2, d3] ++ tl) ++ post)) =
          some ([l1, l2, l3], [d1, d2, d3] ++ tl, post) :=
        afterLetters_complete [l1, l2, l3] [' '] d1 d2 d3 tl post
          (Or.inr (Or.inr rfl)) hd1 hd2 hd3 htl hpost
      show tryMatchCode false false
          (l1 :: l2 :: l3 :: ' ' :: (([d1, d2, d3] ++ tl) ++ post)) = _
      simp only [tryMatchCode, Bool.false_eq_true, if_false, h1, h2, h3,
        Bool.and_self, if_true, show isAsciiLetter ' ' = false from rfl, hal]
  · have hal : afterLetters false [l1, l2, l3, l4]
        (sep ++ (([d1, d2, d3] ++ tl) ++ post)) =
        some ([l1, l2, l3, l4], [d1, d2, d3] ++ tl, post) :=
      afterLetters_complete [l1, l2, l3, l4] sep d1 d2 d3 tl post
        hsep hd1 hd2 hd3 htl hpost
    show tryMatchCode false false
        (l1 :: l2 :: l3 :: l4 :: (sep ++ (([d1, d2, d3] ++ tl) ++ post))) = _
    simp only [tryMatchCode, Bool.false_eq_true, if_false, h1, h2, h3,
      Bool.and_self, if_true, h4, hal, Option.orElse, Option.some.injEq]

/-! ## A match attempted inside the prefix never crosses into the code -/

theorem tryMatchCode_no_cross {p1 code post : List Char} (hp : p1 ≠ [])
    (hlast : ∀ c0, p1.getLast? = some c0 → isWordChar c0 = false)
    (hch : ∃ l cs, code = l :: cs ∧ isAsciiLetter l = true)
    {prevW : Bool} {ds ns rest2 : List Char}
    (h : tryMatchCode false prevW (p1 ++ (code ++ post)) = some (ds, ns, rest2)) :
    ∃ p2, rest2 = p2 ++ (code ++ post) ∧ p2 ≠ [] ∧ p2.length < p1.length ∧
      p2.getLast? = p1.getLast? := by
  obtain ⟨l, cs, rfl, hl⟩ := hch
  obtain ⟨hds, hdsl, ⟨d1, nrest, hns, hd1⟩, hnsw, sepC, hs, hsep⟩ :=
    tryMatchCode_sound h
  have hnsne : ns ≠ [] := by rw [hns]; simp
  -- If p1 were of the form z ++ ns, its last character would be a word
  -- character, contradicting the boundary hypothesis.
  have hlastns : ∀ (z : List Char), p1 = z ++ ns → False := by
    intro z hz
    have hgl : p1.getLast? = ns.getLast? := by
      rw [hz]
      exact List.getLast?_append_of_ne_nil z hnsne
    have hglns := List.getLast?_eq_getLast ns hnsne
    have hwn := hlast (ns.getLast hnsne) (hgl.trans hglns)
    rw [hnsw _ (List.getLast_mem hnsne)] at hwn
    cases hwn
  rcases List.append_eq_append_iff.mp hs with ⟨a, hda, hba⟩ | ⟨c1, hpc, hrc⟩
  · -- p1 is a prefix of the department letters: its last character would be
    -- a letter, contradicting the boundary hypothesis.
    exfalso
    have hgl := List.getLast?_eq_getLast p1 hp
    have hmemds : p1.getLast hp ∈ ds := by
      rw [hda]
      exact List.mem_append_left a (List.getLast_mem hp)
    have hwl := hlast _ hgl
    rw [letter_word (hdsl _ hmemds)] at hwl
    cases hwl
  · rcases List.append_eq_append_iff.mp hrc with ⟨x, hc1, hnr⟩ | ⟨x, hsx, hnx⟩
    · -- The separator ends inside p1; x is the part of p1 after it.
      rcases List.append_eq_append_iff.mp hnr with ⟨b, hxb, hrb⟩ | ⟨c3, hnc3, hcc⟩
      · -- The digits also end inside p1 and b is the leftover: good case.
        have hp1eq : p1 = ds ++ (sepC ++ (ns ++ b)) := by
          rw [hpc, hc1, hxb]
        cases hb : b with
        | nil =>
          exfalso
          subst hb
          apply hlastns (ds ++ sepC)
          rw [hp1eq]
          simp
        | cons b0 bs =>
          have hbne : b ≠ [] := by rw [hb]; simp
          refine ⟨b, hrb, hbne, ?_, ?_⟩
          · rw [hp1eq]
            simp only [List.length_append]
            have := List.length_pos.mpr hds
            omega
          · rw [hp1eq]
            rw [List.getLast?_append_of_ne_nil ds (by simp [hns]),
              List.getLast?_append_of_ne_nil sepC (by simp [hns]),
              List.getLast?_append_of_ne_nil ns hbne]
      · -- The match would end inside the code: impossible.
        exfalso
        cases hc3 : c3 with
        | nil =>
          subst hc3
          rw [List.append_nil] at hnc3
          exact hlastns (ds ++ sepC) (by rw [hpc, hc1, hnc3]; simp)
        | cons y ys =>
          subst hc3
          cases hx : x with
          | nil =>
            subst hx
            rw [List.nil_append] at hnc3
            have hyd : d1 = y := by
              rw [hns] at hnc3
              exact (List.cons.injEq .. |>.mp hnc3).1
            simp only [List.cons_append] at hcc
            have hly : l = y := (List.cons.injEq .. |>.mp hcc).1
            rw [hly, ← hyd, digit_not_letter d1 hd1] at hl
            cases hl
          | cons x0 xs =>
            have hxne : x ≠ [] := by rw [hx]; simp
            have hgl : p1.getLast? = x.getLast? := by
              rw [hpc, hc1]
              rw [List.getLast?_append_of_ne_nil ds (by simp [hxne]),
                List.getLast?_append_of_ne_nil sepC hxne]
            have hglx := List.getLast?_eq_getLast x hxne
            have hmemns : x.getLast hxne ∈ ns := by
              rw [hnc3]
              exact List.mem_append_left _ (List.getLast_mem hxne)
            have hwn := hlast _ (hgl.trans hglx)
            rw [hnsw _ hmemns] at hwn
            cases hwn
    · -- The separator would lie at or beyond the start of the code:
      -- impossible.
      exfalso
      rcases hsep with rfl | ⟨sc, rfl, hscw⟩
      · obtain ⟨rfl, rfl⟩ := List.append_eq_nil.mp hsx.symm
        rw [List.nil_append] at hnx
        rw [hns] at hnx
        simp only [List.cons_append] at hnx
        have hld : l = d1 := (List.cons.injEq .. |>.mp hnx).1
        rw [hld, digit_not_letter d1 hd1] at hl
        cases hl
      · cases hc1x : c1 with
        | nil =>
          subst hc1x
          rw [List.nil_append] at hsx
          rw [← hsx] at hnx
          simp only [List.cons_append, List.singleton_append] at hnx
          have hlsc : l = sc := (List.cons.injEq .. |>.mp hnx).1
          rw [← hlsc] at hscw
          rw [letter_word hl] at hscw
          cases hscw
        | cons c0 cs0 =>
          subst hc1x
          simp only [List.cons_append, List.cons.injEq] at hsx
          obtain ⟨rfl, hrest⟩ := hsx
          obtain ⟨rfl, rfl⟩ := List.append_eq_nil.mp hrest.symm
          rw [List.nil_append] at hnx
          rw [hns] at hnx
          simp only [List.cons_append] at hnx
          have hld : l = d1 := (List.cons.injEq .. |>.mp hnx).1
          rw [hld, digit_not_letter d1 hd1] at hl
          cases hl

/-! ## The findall scan reports the embedded code -/

theorem scanCodesAux_complete (code post dept num : List Char)
    (hch : ∃ l cs, code = l :: cs ∧ isAsciiLetter l = true)
    (hm : tryMatchCode false false (code ++ post) = some (dept, num, post)) :
    ∀ (fuel : Nat) (prevW : Bool) (p : List Char),
      p.length < fuel →
      (p = [] → prevW = false) →
      (∀ c0, p.getLast? = some c0 → isWordChar c0 = false) →
      (dept, num) ∈ scanCodesAux false fuel prevW (p ++ (code ++ post)) := by
  intro fuel
  induction fuel with
  | zero => intro prevW p hlen; omega
  | succ f ih =>
    intro prevW p hlen hpw hlast
    cases p with
    | nil =>
      obtain ⟨l, cs, rfl, hl⟩ := hch
      rw [hpw rfl]
      simp only [List.nil_append, List.cons_append, scanCodesAux]
      rw [show l :: (cs ++ post) = (l :: cs) ++ post from rfl, hm]
      exact List.mem_cons_self _ _
    | cons c p2 =>
      simp only [List.cons_append, scanCodesAux]
      cases hmc : tryMatchCode false prevW (c :: (p2 ++ (code ++ post))) with
      | none =>
        simp only []
        have hpw2 : p2 = [] → isWordChar c = false := by
          intro hp2
          subst hp2
          exact hlast c rfl
        have hlast2 : ∀ c0, p2.getLast? = some c0 → isWordChar c0 = false := by
          intro c0 hc0
          apply hlast
          cases p2 with
          | nil => cases hc0
          | cons d ds =>
            rw [show (c :: d :: ds) = [c] ++ (d :: ds) from rfl,
              List.getLast?_append_of_ne_nil [c] (by simp)]
            exact hc0
        have hrec := ih (isWordChar c) p2 (by simp at hlen ⊢; omega) hpw2 hlast2
        simpa using hrec
      | some r =>
        rcases r with ⟨ds, ns, rest2⟩
        simp only []
        have hmc2 : tryMatchCode false prevW ((c :: p2) ++ (code ++ post)) =
            some (ds, ns, rest2) := by
          rw [List.cons_append]
          exact hmc
        obtain ⟨p3, rfl, hp3ne, hp3len, hp3last⟩ :=
          tryMatchCode_no_cross (by simp) hlast hch hmc2
        have hlast3 : ∀ c0, p3.getLast? = some c0 → isWordChar c0 = false := by
          intro c0 hc0
          exact hlast c0 (hp3last ▸ hc0)
        have hrec := ih true p3
          (by simp only [List.length_cons] at hlen hp3len; omega)
          (fun hc => absurd hc hp3ne) hlast3
        exact List.mem_cons_of_mem _ hrec

/-- Claim C6: every course code of the form DEPT NNN with an optional
trailing letter, written with a space, a hyphen or no separator and in any
letter case, embedded in a query at word boundaries, is returned by
extract_all_course_ids in the canonical uppercase one-space form; the
output is duplicate-free and lists codes in the order of first occurrence
of the raw match sequence. -/
theorem claim_C6 :
    (∀ (pre : List Char) (l1 l2 l3 : Char) (d4 sep : List Char)
       (d1 d2 d3 : Char) (tl post : List Char),
       isAsciiLetter l1 = true → isAsciiLetter l2 = true →
       isAsciiLetter l3 = true →
       (d4 = [] ∨ ∃ l4, d4 = [l4] ∧ isAsciiLetter l4 = true) →
       (sep = [] ∨ sep = ['-'] ∨ sep = [' ']) →
       isAsciiDigit d1 = true → isAsciiDigit d2 = true →
       isAsciiDigit d3 = true →
       (tl = [] ∨ ∃ t, tl = [t] ∧ isAsciiLetter t = true) →
       (∀ c0, pre.getLast? = some c0 → isWordChar c0 = false) →
       (post = [] ∨ ∃ u us, post = u :: us ∧ isWordChar u = false) →
       String.mk (upStr (l1 :: l2 :: l3 :: d4) ++
           ' ' :: upStr ([d1, d2, d3] ++ tl)) ∈
         extract_all_course_ids (String.mk (pre ++
           (((l1 :: l2 :: l3 :: d4) ++ (sep ++ ([d1, d2, d3] ++ tl))) ++ post)))) ∧
    (∀ query : String, (extract_all_course_ids query).Nodup) ∧
    (∀ query : String,
      (extract_all_course_ids query).Sublist
        ((courseIdFindAll false query.data).map canonCode) ∧
      ∀ x, x ∈ extract_all_course_ids query ↔
        x ∈ (courseIdFindAll false query.data).map canonCode) := by
  refine ⟨?_, ?_, ?_⟩
  · intro pre l1 l2 l3 d4 sep d1 d2 d3 tl post h1 h2 h3 hd4 hsep hdg1 hdg2
      hdg3 htl hlast hpost
    have hm : tryMatchCode false false
        (((l1 :: l2 :: l3 :: d4) ++ (sep ++ ([d1, d2, d3] ++ tl))) ++ post) =
        some (l1 :: l2 :: l3 :: d4, [d1, d2, d3] ++ tl, post) := by
      rw [show ((l1 :: l2 :: l3 :: d4) ++ (sep ++ ([d1, d2, d3] ++ tl))) ++ post =
          (l1 :: l2 :: l3 :: d4) ++ (sep ++ (([d1, d2, d3] ++ tl) ++ post)) by
        simp [List.append_assoc]]
      exact tryMatchCode_complete l1 l2 l3 d4 sep d1 d2 d3 tl post h1 h2 h3
        hd4 hsep hdg1 hdg2 hdg3 htl hpost
    have hmem := scanCodesAux_complete
      ((l1 :: l2 :: l3 :: d4) ++ (sep ++ ([d1, d2, d3] ++ tl))) post
      (l1 :: l2 :: l3 :: d4) ([d1, d2, d3] ++ tl)
      ⟨l1, (l2 :: l3 :: d4) ++ (sep ++ ([d1, d2, d3] ++ tl)), rfl, h1⟩
      hm
      (pre ++ (((l1 :: l2 :: l3 :: d4) ++
        (sep ++ ([d1, d2, d3] ++ tl))) ++ post)).length
      false pre
      (by simp only [List.length_append, List.length_cons]; omega)
      (fun _ => rfl) hlast
    exact (mem_dedupKeepFirst _ _).mpr
      (List.mem_map.mpr ⟨(l1 :: l2 :: l3 :: d4, [d1, d2, d3] ++ tl), hmem, rfl⟩)
  · intro query
    exact dedupKeepFirst_nodup _
  · intro query
    exact ⟨dedupKeepFirst_sublist _, fun x => mem_dedupKeepFirst _ x⟩

/-- Witness for C6: the hyphenated lowercase mention comp-250 inside a
sentence is extracted as COMP 250. -/
theorem claim_C6_witness :
    String.mk (upStr ('c' :: 'o' :: 'm' :: ['p']) ++
        ' ' :: upStr (['2', '5', '0'] ++ [])) ∈
      extract_all_course_ids (String.mk ("take ".data ++
        ((('c' :: 'o' :: 'm' :: ['p']) ++ (['-'] ++ (['2', '5', '0'] ++ []))) ++
          " now".data))) ∧
    (extract_all_course_ids "take comp-250 now").Nodup :=
  ⟨claim_C6.1 "take ".data 'c' 'o' 'm' ['p'] ['-'] '2' '5' '0' [] " now".data
      (by decide) (by decide) (by decide) (Or.inr ⟨'p', rfl, by decide⟩)
      (Or.inr (Or.inl rfl)) (by decide) (by decide) (by decide) (Or.inl rfl)
      (by
        intro c0 h0
        rw [show ("take ".data.getLast?) = some ' ' from rfl] at h0
        cases h0
        decide)
      (Or.inr ⟨' ', "now".data, rfl, by decide⟩),
   (claim_C6.2.1) "take comp-250 now"⟩

end CourseCrafter
